import Mathlib

/-!
# Verification of the YMDE download-orchestration engine

This file is a shallow embedding, in Lean 4, of the download orchestration
core of `ytm_takeout_downloader.py`: video-identifier extraction, the
failure classifier, the region-hint retry ladder, the replacement search
with its candidate filter and ranking, the single-track download executor,
the dedup index (library scan and successful-outcome updates), the
per-playlist scheduler, the run coordinator's exit status, and the
progress/ETA blending.

Conventions of the embedding:
* Python strings are `List Char` (abbreviated `LC`); Python `None`/empty
  truthiness is modelled explicitly wherever the source tests it.
* The external `yt-dlp` process is an oracle: each invocation site takes
  its `(returncode, stdout, stderr)` triple (or, for the search mode, the
  already-parsed list of JSON result objects) from an environment.
  Threads complete in an unspecified order in the source; the model
  consumes task outcomes in submission order, which the counting and
  key-set facts proved below do not depend on.
* Regular expressions used by the source are unfolded into explicit
  character scans with Python `re` semantics (leftmost match, lazy/greedy
  quantifiers, `.` not matching a newline).
* Floating-point quantities (ETA arithmetic, duration tolerance) are
  modelled over `ℚ`; the `float('inf')` ETA placeholder is `none`.
* Unicode-sensitive Python predicates (`str.isalpha`, case mapping) are
  modelled on their ASCII fragment.
-/

abbrev LC := List Char

/-! ## Character classes and elementary string operations -/

/-- ASCII letter, digit, underscore or hyphen: the character class
`[A-Za-z0-9_-]` of a video identifier. -/
def isIdChar (c : Char) : Bool :=
  decide (65 ≤ c.toNat ∧ c.toNat ≤ 90) || decide (97 ≤ c.toNat ∧ c.toNat ≤ 122) ||
    decide (48 ≤ c.toNat ∧ c.toNat ≤ 57) || decide (c.toNat = 95) || decide (c.toNat = 45)

/-- ASCII uppercase letter `[A-Z]`. -/
def isUpperAlpha (c : Char) : Bool :=
  decide (65 ≤ c.toNat ∧ c.toNat ≤ 90)

/-- ASCII letter. -/
def isAsciiLetter (c : Char) : Bool :=
  decide (65 ≤ c.toNat ∧ c.toNat ≤ 90) || decide (97 ≤ c.toNat ∧ c.toNat ≤ 122)

/-- The whitespace class of Python's `str.split()` / `str.strip()` / `\s`
(ASCII fragment): space, tab, newline, carriage return, vertical tab,
form feed. -/
def pyIsSpace (c : Char) : Bool :=
  decide (c.toNat = 32) || decide (c.toNat = 9) || decide (c.toNat = 10) ||
    decide (c.toNat = 13) || decide (c.toNat = 11) || decide (c.toNat = 12)

/-- ASCII fragment of Python's `str.lower` on one character. -/
def toLowerC (c : Char) : Char :=
  if 65 ≤ c.toNat ∧ c.toNat ≤ 90 then Char.ofNat (c.toNat + 32) else c

/-- ASCII fragment of Python's `str.upper` on one character. -/
def toUpperC (c : Char) : Char :=
  if 97 ≤ c.toNat ∧ c.toNat ≤ 122 then Char.ofNat (c.toNat - 32) else c

def lowerL (s : LC) : LC := s.map toLowerC

def upperL (s : LC) : LC := s.map toUpperC

/-- `litAt lit s`: the literal `lit` matches at the start of `s`. -/
def litAt : LC → LC → Bool
  | [], _ => true
  | _ :: _, [] => false
  | a :: as, b :: bs => a == b && litAt as bs

/-- Case-insensitive variant of `litAt` (for `re.IGNORECASE` literals). -/
def litAtCI : LC → LC → Bool
  | [], _ => true
  | _ :: _, [] => false
  | a :: as, b :: bs => toLowerC a == toLowerC b && litAtCI as bs

/-- Python's `pat in s` substring test. -/
def containsSub (pat : LC) : LC → Bool
  | [] => litAt pat []
  | c :: r => litAt pat (c :: r) || containsSub pat r

/-- Python's `str.strip()` (ASCII whitespace). -/
def stripWs (s : LC) : LC :=
  ((s.dropWhile pyIsSpace).reverse.dropWhile pyIsSpace).reverse

/-- `s.split(",")`: split at every comma, keeping empty pieces. -/
def splitCommaAux (acc : LC) : LC → List LC
  | [] => [acc.reverse]
  | c :: r => if c = ',' then acc.reverse :: splitCommaAux [] r else splitCommaAux (c :: acc) r

def splitComma (s : LC) : List LC := splitCommaAux [] s

/-- Maximal runs of characters satisfying `keep` (dropping separators):
the common shape of `str.split()` and `re.split` + emptiness filter. -/
def splitRunsAux (keep : Char → Bool) (acc : LC) : LC → List LC
  | [] => if acc.isEmpty then [] else [acc.reverse]
  | c :: r =>
    if keep c then splitRunsAux keep (c :: acc) r
    else if acc.isEmpty then splitRunsAux keep [] r
    else acc.reverse :: splitRunsAux keep [] r

/-- Python's `str.split()` (split on whitespace runs, no empties). -/
def splitWs (s : LC) : List LC := splitRunsAux (fun c => !pyIsSpace c) [] s

/-! ## `get_video_id`

The source extracts the 11-character identifier with
`re.search(r"(?:youtube\.com|youtu\.be).*?([A-Za-z0-9_-]{11})", url)`:
leftmost match; at the match position, the lazy `.*?` makes the group the
earliest following run of 11 identifier characters, with `.` not crossing
a newline. -/

/-- `idRun n s`: the first `n` characters of `s` exist and are identifier
characters. -/
def idRun : Nat → LC → Bool
  | 0, _ => true
  | _ + 1, [] => false
  | n + 1, c :: rest => isIdChar c && idRun n rest

/-- Earliest run of 11 identifier characters in `s`, the skipped
characters all non-newline (the `.*?([A-Za-z0-9_-]{11})` part). -/
def findIdRun : LC → Option LC
  | [] => none
  | c :: rest =>
    if idRun 11 (c :: rest) then some ((c :: rest).take 11)
    else if c = '\n' then none
    else findIdRun rest

def ytLit : LC := "youtube.com".toList

def ybLit : LC := "youtu.be".toList

def gviScan : LC → Option LC
  | [] => none
  | c :: rest =>
    if litAt ytLit (c :: rest) then
      match findIdRun (List.drop 11 (c :: rest)) with
      | some v => some v
      | none => gviScan rest
    else if litAt ybLit (c :: rest) then
      match findIdRun (List.drop 8 (c :: rest)) with
      | some v => some v
      | none => gviScan rest
    else gviScan rest

/-- `get_video_id` (line 110): the 11-character video ID of a YouTube URL,
if any. -/
def getVideoId (url : LC) : Option LC := gviScan url

/-- A well-formed video identifier: exactly 11 characters of
`[A-Za-z0-9_-]` (the glossary's "identifier"). -/
def wf11 (v : LC) : Prop := v.length = 11 ∧ v.all isIdChar = true

instance (v : LC) : Decidable (wf11 v) := by unfold wf11; infer_instance

/-- `https://www.youtube.com/watch?v=`, the base used when a URL is built
from a bare identifier (line 621) and for non-music replacement URLs. -/
def wwwBase : LC := "https://www.youtube.com/watch?v=".toList

/-- `https://music.youtube.com/watch?v=`, the music-domain base of
replacement URLs (line 564). -/
def musicBase : LC := "https://music.youtube.com/watch?v=".toList

theorem idRun_of_all : ∀ (n : Nat) (l : LC), n ≤ l.length → l.all isIdChar = true →
    idRun n l = true
  | 0, _, _, _ => rfl
  | _ + 1, [], h, _ => by simp at h
  | n + 1, c :: rest, h, hall => by
    simp only [List.all_cons, Bool.and_eq_true] at hall
    simp only [idRun, hall.1, Bool.true_and]
    exact idRun_of_all n rest (by simpa using h) hall.2

theorem idRun_length : ∀ (n : Nat) (l : LC), idRun n l = true → n ≤ l.length
  | 0, _, _ => Nat.zero_le _
  | _ + 1, [], h => by simp [idRun] at h
  | n + 1, _ :: rest, h => by
    simp only [idRun, Bool.and_eq_true] at h
    have := idRun_length n rest h.2
    simp only [List.length_cons]
    omega

theorem findIdRun_all (v : LC) (h1 : v.length = 11) (h2 : v.all isIdChar = true) :
    findIdRun v = some v := by
  match v, h1 with
  | c :: rest, h1 =>
    have hrun : idRun 11 (c :: rest) = true := idRun_of_all 11 _ (by omega) h2
    simp only [findIdRun, hrun, if_true]
    congr 1
    exact List.take_of_length_le (by omega)

theorem findIdRun_length : ∀ (s v : LC), findIdRun s = some v → v.length = 11 := by
  intro s
  induction s with
  | nil => intro v h; simp [findIdRun] at h
  | cons c rest ih =>
    intro v h
    by_cases hrun : idRun 11 (c :: rest) = true
    · simp only [findIdRun, hrun, if_true, Option.some.injEq] at h
      have hlen : 11 ≤ (c :: rest).length := idRun_length 11 _ hrun
      rw [← h, List.length_take]
      simp only [List.length_cons] at hlen ⊢
      omega
    · simp only [findIdRun, hrun, if_false] at h
      by_cases hn : c = '\n'
      · simp [hn] at h
      · simp only [hn, if_false] at h
        exact ih v h

theorem gviScan_length : ∀ (s v : LC), gviScan s = some v → v.length = 11 := by
  intro s
  induction s with
  | nil => intro v h; simp [gviScan] at h
  | cons c rest ih =>
    intro v h
    simp only [gviScan] at h
    by_cases h1 : litAt ytLit (c :: rest) = true
    · simp only [h1, if_true] at h
      cases hf : findIdRun (List.drop 11 (c :: rest)) with
      | some w => rw [hf] at h; cases h; exact findIdRun_length _ _ hf
      | none => rw [hf] at h; exact ih v h
    · simp only [h1, if_false] at h
      by_cases h2 : litAt ybLit (c :: rest) = true
      · simp only [h2, if_true] at h
        cases hf : findIdRun (List.drop 8 (c :: rest)) with
        | some w => rw [hf] at h; cases h; exact findIdRun_length _ _ hf
        | none => rw [hf] at h; exact ih v h
      · simp only [h2, if_false] at h
        exact ih v h

/-- Any identifier returned by `get_video_id` has 11 characters. -/
theorem getVideoId_length (s v : LC) (h : getVideoId s = some v) : v.length = 11 :=
  gviScan_length s v h

theorem getVideoId_ne_nil (s v : LC) (h : getVideoId s = some v) : v ≠ [] := by
  intro hv
  have := getVideoId_length s v h
  rw [hv] at this
  simp at this

/-- Definitional reduction of the scan over the concrete standard-domain
prefix: the first literal match is `youtube.com`, and the lazy group then
starts scanning at `/watch?v=`. -/
theorem gviScan_wwwBase (v : LC) :
    gviScan (wwwBase ++ v) =
      match findIdRun v with
      | some x => some x
      | none => gviScan ("outube.com/watch?v=".toList ++ v) := rfl

theorem gviScan_musicBase (v : LC) :
    gviScan (musicBase ++ v) =
      match findIdRun v with
      | some x => some x
      | none => gviScan ("outube.com/watch?v=".toList ++ v) := rfl

/-- Extracting the identifier back out of a canonical standard-domain URL
built from a well-formed identifier recovers that identifier. -/
theorem getVideoId_wwwBase (v : LC) (h : wf11 v) :
    getVideoId (wwwBase ++ v) = some v := by
  show gviScan (wwwBase ++ v) = some v
  rw [gviScan_wwwBase, findIdRun_all v h.1 h.2]

/-- Extracting the identifier back out of a canonical music-domain URL
built from a well-formed identifier recovers that identifier. -/
theorem getVideoId_musicBase (v : LC) (h : wf11 v) :
    getVideoId (musicBase ++ v) = some v := by
  show gviScan (musicBase ++ v) = some v
  rw [gviScan_musicBase, findIdRun_all v h.1 h.2]

/-! ## `classify_failure` (lines 224-235) -/

inductive FailCategory where
  | age_restricted
  | premium_only
  | region_blocked
  | unavailable
  | other
deriving DecidableEq, Repr

def agePhrase : LC := "sign in to confirm your age".toList

def premiumPhrase1 : LC := "music premium".toList

def premiumPhrase2 : LC := "premium members".toList

def regionPhrase1 : LC := "not made this video available in your country".toList

def regionPhrase2 : LC := "uploader has not made".toList

def unavailablePhrase : LC := "video unavailable".toList

/-- `classify_failure`: ordered, case-insensitive substring rules over the
diagnostic text. -/
def classifyFailure (stderrText : LC) : FailCategory :=
  let s := lowerL stderrText
  if containsSub agePhrase s then .age_restricted
  else if containsSub premiumPhrase1 s || containsSub premiumPhrase2 s then .premium_only
  else if containsSub regionPhrase1 s || containsSub regionPhrase2 s then .region_blocked
  else if containsSub unavailablePhrase s then .unavailable
  else .other

/-- The sign-in/age-gate rule matches. -/
def hasAgePhrase (s : LC) : Bool := containsSub agePhrase (lowerL s)

/-- A premium-subscription phrase matches. -/
def hasPremiumPhrase (s : LC) : Bool :=
  containsSub premiumPhrase1 (lowerL s) || containsSub premiumPhrase2 (lowerL s)

/-- A region/uploader-availability phrase matches. -/
def hasRegionPhrase (s : LC) : Bool :=
  containsSub regionPhrase1 (lowerL s) || containsSub regionPhrase2 (lowerL s)

/-- The generic unavailability phrase matches. -/
def hasUnavailablePhrase (s : LC) : Bool := containsSub unavailablePhrase (lowerL s)

/-! ## The dedup index

Python's `dict` keyed by video identifiers, modelled as an insertion-ordered
association list whose two mutation patterns mirror the source:
`scanInsert` is the scan's `if vid not in vids: vids[vid] = p` and
`dictSet` is the scheduler's unconditional `downloaded_vids[vid] = path`. -/

abbrev VidMap := List (LC × LC)

def alLookup (m : VidMap) (k : LC) : Option LC :=
  match m with
  | [] => none
  | (k', v) :: rest => if k' = k then some v else alLookup rest k

def keysOf (m : VidMap) : List LC := m.map Prod.fst

/-- Insert only when the key is absent (`find_existing_downloads`,
lines 104-105: first-seen wins). -/
def scanInsert (m : VidMap) (k v : LC) : VidMap :=
  if (alLookup m k).isSome then m else m ++ [(k, v)]

/-- Unconditional keyed store (`downloaded_vids[vid] = final_path`,
line 710): overwrite in place, or append a fresh key at the end. -/
def dictSet (m : VidMap) (k v : LC) : VidMap :=
  match m with
  | [] => [(k, v)]
  | (k', v') :: rest => if k' = k then (k', v) :: rest else (k', v') :: dictSet rest k v

theorem alLookup_dictSet (m : VidMap) (k v w : LC) :
    alLookup (dictSet m k v) w = if k = w then some v else alLookup m w := by
  induction m with
  | nil => simp [dictSet, alLookup]
  | cons p rest ih =>
    obtain ⟨k', v'⟩ := p
    by_cases h : k' = k
    · subst h
      simp only [dictSet, if_pos rfl]
      by_cases hw : k' = w <;> simp [alLookup, hw]
    · simp only [dictSet, if_neg h, alLookup]
      by_cases hw : k' = w
      · subst hw
        simp only [if_pos rfl]
        have : ¬k = k' := fun hh => h hh.symm
        simp [this]
      · simp [hw, ih]

theorem keysOf_dictSet (m : VidMap) (k v : LC) :
    keysOf (dictSet m k v) = if (alLookup m k).isSome then keysOf m else keysOf m ++ [k] := by
  induction m with
  | nil => simp [dictSet, keysOf, alLookup]
  | cons p rest ih =>
    obtain ⟨k', v'⟩ := p
    by_cases h : k' = k
    · subst h
      simp [dictSet, keysOf, alLookup]
    · simp only [dictSet, if_neg h]
      have hcons : keysOf ((k', v') :: dictSet rest k v) = k' :: keysOf (dictSet rest k v) := rfl
      rw [hcons, ih]
      have hlc : alLookup ((k', v') :: rest) k = alLookup rest k := by simp [alLookup, h]
      rw [hlc]
      by_cases hl : (alLookup rest k).isSome <;> simp [hl, keysOf]

theorem alLookup_isSome_iff_mem_keys (m : VidMap) (k : LC) :
    (alLookup m k).isSome ↔ k ∈ keysOf m := by
  induction m with
  | nil => simp [alLookup, keysOf]
  | cons p rest ih =>
    obtain ⟨k', v'⟩ := p
    by_cases h : k' = k
    · subst h; simp [alLookup, keysOf]
    · simp only [alLookup, if_neg h, keysOf, List.map_cons, List.mem_cons]
      rw [show (List.map Prod.fst rest : List LC) = keysOf rest from rfl, ih]
      constructor
      · exact fun hm => Or.inr hm
      · rintro (hm | hm)
        · exact absurd hm.symm h
        · exact hm

/-- A `dictSet` update never breaks key distinctness: overwriting keeps the
keys, and a fresh key is appended exactly once. -/
theorem nodup_keys_dictSet (m : VidMap) (k v : LC) (h : (keysOf m).Nodup) :
    (keysOf (dictSet m k v)).Nodup := by
  rw [keysOf_dictSet]
  by_cases hl : (alLookup m k).isSome
  · simpa [hl]
  · have hk : k ∉ keysOf m := fun hm => hl ((alLookup_isSome_iff_mem_keys m k).2 hm)
    rw [if_neg hl, List.nodup_append]
    refine ⟨h, List.nodup_singleton k, ?_⟩
    intro a ha hb
    simp only [List.mem_singleton] at hb
    subst hb
    exact hk ha

theorem keysOf_scanInsert (m : VidMap) (k v : LC) (h : (keysOf m).Nodup) :
    (keysOf (scanInsert m k v)).Nodup := by
  unfold scanInsert
  by_cases hl : (alLookup m k).isSome
  · simpa [hl]
  · have hk : k ∉ keysOf m := fun hm => hl ((alLookup_isSome_iff_mem_keys m k).2 hm)
    rw [if_neg hl]
    have hkeys : keysOf (m ++ [(k, v)]) = keysOf m ++ [k] := by simp [keysOf]
    rw [hkeys, List.nodup_append]
    refine ⟨h, List.nodup_singleton k, ?_⟩
    intro a ha hb
    simp only [List.mem_singleton] at hb
    subst hb
    exact hk ha

theorem alLookup_scanInsert (m : VidMap) (k v w : LC) :
    alLookup (scanInsert m k v) w =
      if (alLookup m w).isSome then alLookup m w
      else if k = w then some v else none := by
  unfold scanInsert
  by_cases hk : (alLookup m k).isSome
  · simp only [hk, if_true]
    by_cases hw : (alLookup m w).isSome
    · simp [hw]
    · simp only [hw, if_false]
      by_cases hkw : k = w
      · subst hkw
        exact absurd hk hw
      · simp [hkw, Option.not_isSome_iff_eq_none.1 hw]
  · simp only [hk, if_false]
    clear hk
    induction m with
    | nil => simp [alLookup]
    | cons p rest ih =>
      obtain ⟨k', v'⟩ := p
      by_cases h : k' = w
      · subst h; simp [alLookup]
      · simp only [List.cons_append, alLookup, if_neg h]
        exact ih

/-! ## `find_existing_downloads` (lines 89-108)

The scan walks every file under the library root, extracts an identifier
from filenames matching `\[([A-Za-z0-9_-]{11})\]\.[^.]+$`, and keeps the
first path per identifier.  A file is modelled as its
`(name, full path)` pair, in traversal order; directories and non-file
entries are filtered at this boundary. -/

/-- Match of the filename pattern anchored at the current position: `[`,
eleven identifier characters, `].`, then a nonempty dot-free tail
reaching the end of the name. -/
def extMatchAt (s : LC) : Option LC :=
  match s with
  | '[' :: rest =>
    if idRun 11 rest then
      match List.drop 11 rest with
      | ']' :: '.' :: tail =>
        if !tail.isEmpty && tail.all (fun c => !(c = '.')) then some (rest.take 11) else none
      | _ => none
    else none
  | _ => none

/-- Leftmost match position of the filename-identifier pattern. -/
def extractFileId : LC → Option LC
  | [] => none
  | c :: r =>
    match extMatchAt (c :: r) with
    | some v => some v
    | none => extractFileId r

def scanAux (m : VidMap) : List (LC × LC) → VidMap
  | [] => m
  | (nm, p) :: fs =>
    match extractFileId nm with
    | some vid => scanAux (scanInsert m vid p) fs
    | none => scanAux m fs

/-- `find_existing_downloads`: the initial dedup index built from the
library files. -/
def findExistingDownloads (files : List (LC × LC)) : VidMap := scanAux [] files

theorem scanAux_nodup (files : List (LC × LC)) :
    ∀ m : VidMap, (keysOf m).Nodup → (keysOf (scanAux m files)).Nodup := by
  induction files with
  | nil => intro m h; exact h
  | cons f fs ih =>
    intro m h
    obtain ⟨nm, p⟩ := f
    simp only [scanAux]
    cases extractFileId nm with
    | some vid => exact ih _ (keysOf_scanInsert m vid p h)
    | none => exact ih m h

theorem scanAux_lookup (files : List (LC × LC)) :
    ∀ (m : VidMap) (v : LC), alLookup (scanAux m files) v =
      if (alLookup m v).isSome then alLookup m v
      else (files.find? (fun f => extractFileId f.1 == some v)).map Prod.snd := by
  induction files with
  | nil =>
    intro m v
    by_cases h : (alLookup m v).isSome
    · simp [scanAux, h]
    · simp [scanAux, h, Option.not_isSome_iff_eq_none.1 h]
  | cons f fs ih =>
    intro m v
    obtain ⟨nm, p⟩ := f
    simp only [scanAux]
    cases hx : extractFileId nm with
    | some vid =>
      rw [ih]
      by_cases hv : (alLookup m v).isSome
      · have hsome : (alLookup (scanInsert m vid p) v).isSome := by
          rw [alLookup_scanInsert]; simp [hv]
        simp [hsome, alLookup_scanInsert, hv]
      · rw [alLookup_scanInsert]
        simp only [hv, if_false, Bool.false_eq_true]
        by_cases hvv : vid = v
        · subst hvv
          simp [List.find?, hx]
        · have hnone : (if vid = v then some p else none) = none := by simp [hvv]
          rw [hnone]
          simp only [Option.isSome_none, Bool.false_eq_true, if_false]
          have hfa : (extractFileId nm == some v) = false := by simp [hx, hvv]
          simp [List.find?, hfa]
    | none =>
      rw [ih]
      by_cases hv : (alLookup m v).isSome
      · simp [hv]
      · have hfa : (extractFileId nm == some v) = false := by simp [hx]
        simp [hv, List.find?, hfa]

/-! ## Track resolution (`process_playlist`, lines 614-631) -/

/-- One Takeout track record: `title`, `url`, `videoId`, each possibly
absent (the `source` tag is never read by the downloader). -/
structure Track where
  title : Option LC
  url : Option LC
  videoId : Option LC
deriving DecidableEq, Repr

/-- Python truthiness of an optional string: present and nonempty. -/
def truthyO : Option LC → Bool
  | none => false
  | some s => !s.isEmpty

@[simp] theorem truthyO_none : truthyO none = false := rfl

@[simp] theorem truthyO_some (s : LC) : truthyO (some s) = !s.isEmpty := rfl

/-- The two resolution assignments of the track loop:
`if vid and not url: url = f"https://www.youtube.com/watch?v={vid}"`, then
`if url and not vid: vid = get_video_id(url)`. -/
def resolveStep (p : Option LC × Option LC) : Option LC × Option LC :=
  let url := if truthyO p.2 && !truthyO p.1 then some (wwwBase ++ p.2.getD []) else p.1
  let vid := if truthyO url && !truthyO p.2 then getVideoId (url.getD []) else p.2
  (url, vid)

/-- `resolveTrack t`: the `(url, videoId)` pair the scheduler submits, or
`none` when the track fails the `if not (url and vid): continue` test. -/
def resolveTrack (t : Track) : Option (LC × LC) :=
  let p := resolveStep (t.url, t.videoId)
  if truthyO p.1 && truthyO p.2 then some (p.1.getD [], p.2.getD []) else none

theorem truthyO_wwwBase_append (v : LC) : truthyO (some (wwwBase ++ v)) = true := by
  simp [truthyO, wwwBase, List.isEmpty_iff]

/-- Resolution is idempotent on `(url?, videoId?)` pairs. -/
theorem resolveStep_idem (p : Option LC × Option LC) :
    resolveStep (resolveStep p) = resolveStep p := by
  obtain ⟨u, v⟩ := p
  by_cases hv : truthyO v = true
  · by_cases hu : truthyO u = true
    · simp [resolveStep, hv, hu]
    · simp only [Bool.not_eq_true] at hu
      simp [resolveStep, hv, hu, truthyO_wwwBase_append]
  · simp only [Bool.not_eq_true] at hv
    by_cases hu : truthyO u = true
    · have h1 : resolveStep (u, v) = (u, getVideoId (u.getD [])) := by
        simp [resolveStep, hv, hu]
      rw [h1]
      by_cases hg : truthyO (getVideoId (u.getD [])) = true
      · simp [resolveStep, hv, hu, hg, h1]
      · simp only [Bool.not_eq_true] at hg
        simp [resolveStep, hv, hu, hg, h1]
    · simp only [Bool.not_eq_true] at hu
      simp [resolveStep, hv, hu]

/-! ## Region escalation (`download_track`, lines 291-349) -/

/-- One `run_cmd` result: `(returncode, stdout, stderr)` (lines 211-222). -/
structure ToolResult where
  rc : Int
  out : LC
  err : LC
deriving DecidableEq, Repr

/-- `$`-position of Python `re` (no `MULTILINE`): end of string, or just
before one trailing newline. -/
def dollarAt : LC → Bool
  | [] => true
  | ['\n'] => true
  | _ => false

/-- May the lazy group `(.+?)` stop here, i.e. does `(?:\.|$)` match on
the remaining text? -/
def qualStop (rest : LC) : Bool :=
  dollarAt rest || (match rest with | '.' :: _ => true | _ => false)

/-- The lazy group of `available in (.+?)(?:\.|$)`: shortest nonempty run
of non-newline characters after which `(?:\.|$)` matches. -/
def capAfter : LC → Option LC
  | [] => none
  | c :: rest =>
    if c = '\n' then none
    else if qualStop rest then some [c]
    else (capAfter rest).map (fun g => c :: g)

def availMarker : LC := "available in ".toList

/-- `re.search(r"available in (.+?)(?:\.|$)", stderr, re.IGNORECASE)`
(line 295): group 1 of the leftmost successful match. -/
def availInCapture : LC → Option LC
  | [] => none
  | c :: r =>
    if litAtCI availMarker (c :: r) then
      match capAfter (List.drop 13 (c :: r)) with
      | some g => some g
      | none => availInCapture r
    else availInCapture r

/-- `[c.strip() for c in raw_list.split(",") if c.strip()]` (line 299). -/
def parseCountryList (raw : LC) : List LC :=
  (splitComma raw).filterMap (fun c => if (stripWs c).isEmpty then none else some (stripWs c))

/-- `re.fullmatch(r"[A-Z]{2,3}", code)` (line 318). -/
def isValidCode (code : LC) : Bool :=
  (decide (code.length = 2) || decide (code.length = 3)) && code.all isUpperAlpha

/-- The per-country candidate code of lines 308-319: a single token of at
most 3 characters is uppercased whole; a longer single token contributes
its first two characters; a multi-word name contributes the initials of
its first two words; candidates failing `[A-Z]{2,3}` are discarded.
The empty-token case cannot arise from `parseCountryList` (the source
would raise an `IndexError` there). -/
def deriveCode (country : LC) : Option LC :=
  match splitWs country with
  | [] => none
  | [w] =>
    let code := if w.length ≤ 3 then upperL w else upperL (w.take 2)
    if isValidCode code then some code else none
  | w1 :: w2 :: _ =>
    let code := upperL [w1.headD ' ', w2.headD ' ']
    if isValidCode code then some code else none

/-- Success test of one geo retry: `rc_geo == 0 and fp_geo` (line 340). -/
def geoOk (geo : LC → ToolResult) (code : LC) : Bool :=
  (geo code).rc == 0 && !(geo code).out.isEmpty

/-- The sequential region-hint ladder (lines 303-349): walk the country
list, skipping names that yield no valid code without consuming a retry,
retrying once per derived code, stopping at the first success or after 5
consumed retries.  Returns the codes attempted in order, and the
successful `(code, filepath)` if any. -/
def ladderRun (geo : LC → ToolResult) : Nat → List LC → List LC × Option (LC × LC)
  | _, [] => ([], none)
  | tried, c :: rest =>
    if 5 ≤ tried then ([], none)
    else
      match deriveCode c with
      | none => ladderRun geo tried rest
      | some code =>
        if geoOk geo code then ([code], some (code, (geo code).out))
        else
          let r := ladderRun geo (tried + 1) rest
          (code :: r.1, r.2)

/-- The prefix of a hint list up to and including the first success. -/
def upToIncl (ok : LC → Bool) : List LC → List LC
  | [] => []
  | h :: t => if ok h then [h] else h :: upToIncl ok t

theorem ladderRun_attempts (geo : LC → ToolResult) :
    ∀ (cs : List LC) (tried : Nat),
      (ladderRun geo tried cs).1 = upToIncl (geoOk geo) ((cs.filterMap deriveCode).take (5 - tried))
  | [], tried => by simp [ladderRun, upToIncl]
  | c :: rest, tried => by
    by_cases ht : 5 ≤ tried
    · have h5 : 5 - tried = 0 := by omega
      simp [ladderRun, ht, h5, upToIncl]
    · simp only [ladderRun, if_neg ht]
      cases hd : deriveCode c with
      | none => simp only [List.filterMap_cons, hd]; exact ladderRun_attempts geo rest tried
      | some code =>
        have h5 : 5 - tried = (5 - (tried + 1)) + 1 := by omega
        simp only [List.filterMap_cons, hd, h5, List.take_succ_cons]
        by_cases hok : geoOk geo code = true
        · simp [hok, upToIncl]
        · simp only [Bool.not_eq_true] at hok
          simp [hok, upToIncl, ladderRun_attempts geo rest (tried + 1)]

theorem upToIncl_length_le (ok : LC → Bool) :
    ∀ l : List LC, (upToIncl ok l).length ≤ l.length
  | [] => le_refl _
  | h :: t => by
    by_cases hh : ok h = true
    · simp [upToIncl, hh]
    · simp only [Bool.not_eq_true] at hh
      simp only [upToIncl, hh, Bool.false_eq_true, if_false, List.length_cons]
      exact Nat.succ_le_succ (upToIncl_length_le ok t)

theorem ladderRun_length_le_five (geo : LC → ToolResult) (cs : List LC) :
    (ladderRun geo 0 cs).1.length ≤ 5 := by
  rw [ladderRun_attempts]
  calc (upToIncl (geoOk geo) ((cs.filterMap deriveCode).take (5 - 0))).length
      ≤ ((cs.filterMap deriveCode).take (5 - 0)).length := upToIncl_length_le _ _
    _ ≤ 5 - 0 := List.length_take_le _ _
    _ ≤ 5 := by omega

theorem toNat_ofNat_valid (n : Nat) (h : n < 55296) : (Char.ofNat n).toNat = n := by
  unfold Char.ofNat
  rw [dif_pos (Or.inl (by exact_mod_cast h))]
  rfl

theorem toUpperC_lower (c : Char) (h : 97 ≤ c.toNat ∧ c.toNat ≤ 122) :
    (toUpperC c).toNat = c.toNat - 32 := by
  unfold toUpperC
  rw [if_pos h, toNat_ofNat_valid _ (by omega)]

theorem toUpperC_of_not_lower (c : Char) (h : ¬(97 ≤ c.toNat ∧ c.toNat ≤ 122)) :
    toUpperC c = c := by
  unfold toUpperC
  rw [if_neg h]

theorem isUpperAlpha_toUpperC (c : Char) (h : isAsciiLetter c = true) :
    isUpperAlpha (toUpperC c) = true := by
  simp only [isAsciiLetter, Bool.or_eq_true, decide_eq_true_eq] at h
  rcases h with h | h
  · rw [toUpperC_of_not_lower c (by omega)]
    simp only [isUpperAlpha, decide_eq_true_eq]
    omega
  · have := toUpperC_lower c h
    simp only [isUpperAlpha, decide_eq_true_eq]
    omega

theorem upperL_all_upper (w : LC) (h : w.all isAsciiLetter = true) :
    (upperL w).all isUpperAlpha = true := by
  simp only [upperL, List.all_map, List.all_eq_true] at *
  exact fun c hc => isUpperAlpha_toUpperC c (h c hc)

theorem upperL_length (w : LC) : (upperL w).length = w.length := List.length_map _ _

theorem letter_not_space (c : Char) (h : isAsciiLetter c = true) : pyIsSpace c = false := by
  simp only [isAsciiLetter, Bool.or_eq_true, decide_eq_true_eq] at h
  simp only [pyIsSpace, Bool.or_eq_false_iff, decide_eq_false_iff_not]
  omega

theorem splitRunsAux_all_keep (keep : Char → Bool) :
    ∀ (w acc : LC), w.all keep = true → ¬(acc = [] ∧ w = []) →
      splitRunsAux keep acc w = [acc.reverse ++ w]
  | [], acc, _, hne => by
    have : ¬acc.isEmpty = true := by
      simp only [List.isEmpty_iff]
      intro h; exact hne ⟨h, rfl⟩
    simp [splitRunsAux, this]
  | c :: r, acc, hall, _ => by
    simp only [List.all_cons, Bool.and_eq_true] at hall
    rw [splitRunsAux, if_pos hall.1, splitRunsAux_all_keep keep r (c :: acc) hall.2 (by simp)]
    simp

/-- `str.split()` of a single whitespace-free nonempty token. -/
theorem splitWs_single (w : LC) (hne : w ≠ []) (hk : w.all (fun c => !pyIsSpace c) = true) :
    splitWs w = [w] := by
  unfold splitWs
  rw [splitRunsAux_all_keep _ w [] hk (by simp [hne])]
  simp

theorem splitRunsAux_two (w1 w2 : LC) (h1 : w1.all (fun c => !pyIsSpace c) = true)
    (h1ne : w1 ≠ []) (h2 : w2.all (fun c => !pyIsSpace c) = true) (h2ne : w2 ≠ []) :
    splitRunsAux (fun c => !pyIsSpace c) [] (w1 ++ ' ' :: w2) = [w1, w2] := by
  suffices h : ∀ (acc : LC), (acc.reverse ++ w1) ≠ [] →
      (acc.reverse ++ w1).all (fun c => !pyIsSpace c) = true →
      splitRunsAux (fun c => !pyIsSpace c) acc (w1 ++ ' ' :: w2) = [acc.reverse ++ w1, w2] by
    simpa using h [] (by simpa using h1ne) (by simpa using h1)
  clear h1 h1ne
  induction w1 with
  | nil =>
    intro acc hne hall
    simp only [List.nil_append]
    rw [splitRunsAux]
    have hsp : (!pyIsSpace ' ') = false := by decide
    simp only [hsp, Bool.false_eq_true, if_false]
    have hacc : ¬acc.isEmpty = true := by
      simp only [List.isEmpty_iff]
      intro h0
      apply hne
      simp [h0]
    simp only [hacc, if_false]
    rw [splitRunsAux_all_keep _ w2 [] h2 (by simp [h2ne])]
    simp
  | cons c r ih =>
    intro acc hne hall
    have hc : (fun c => !pyIsSpace c) c = true := by
      have : c ∈ acc.reverse ++ c :: r := by simp
      exact (List.all_eq_true.1 hall) c this
    simp only [List.cons_append]
    rw [splitRunsAux, if_pos hc]
    have := ih (c :: acc) (by simp) (by simpa using hall)
    simpa using this

/-- `str.split()` of exactly two space-separated whitespace-free tokens. -/
theorem splitWs_two (w1 w2 : LC) (h1 : w1.all (fun c => !pyIsSpace c) = true)
    (h1ne : w1 ≠ []) (h2 : w2.all (fun c => !pyIsSpace c) = true) (h2ne : w2 ≠ []) :
    splitWs (w1 ++ ' ' :: w2) = [w1, w2] :=
  splitRunsAux_two w1 w2 h1 h1ne h2 h2ne

theorem all_letters_no_space (w : LC) (h : w.all isAsciiLetter = true) :
    w.all (fun c => !pyIsSpace c) = true := by
  simp only [List.all_eq_true] at *
  intro c hc
  simp [letter_not_space c (h c hc)]

/-- A single all-letter token of length 2 or 3 is uppercased whole. -/
theorem deriveCode_short (w : LC) (hlet : w.all isAsciiLetter = true)
    (hlen : w.length = 2 ∨ w.length = 3) : deriveCode w = some (upperL w) := by
  have hne : w ≠ [] := by
    intro h0; rw [h0] at hlen; simp at hlen
  unfold deriveCode
  rw [splitWs_single w hne (all_letters_no_space w hlet)]
  have h3 : w.length ≤ 3 := by omega
  simp only [h3, if_true]
  have hvalid : isValidCode (upperL w) = true := by
    unfold isValidCode
    rw [upperL_length]
    rcases hlen with h | h <;> simp [h, upperL_all_upper w hlet]
  simp [hvalid]

/-- A single all-letter token of length ≥ 4 contributes its first two
letters, uppercased. -/
theorem deriveCode_long (w : LC) (hlet : w.all isAsciiLetter = true)
    (hlen : 4 ≤ w.length) : deriveCode w = some (upperL (w.take 2)) := by
  have hne : w ≠ [] := by
    intro h0; rw [h0] at hlen; simp at hlen
  unfold deriveCode
  rw [splitWs_single w hne (all_letters_no_space w hlet)]
  have h3 : ¬w.length ≤ 3 := by omega
  simp only [h3, if_false]
  have htake : (w.take 2).all isAsciiLetter = true := by
    simp only [List.all_eq_true] at *
    exact fun c hc => hlet c (List.mem_of_mem_take hc)
  have hvalid : isValidCode (upperL (w.take 2)) = true := by
    unfold isValidCode
    rw [upperL_length]
    have : (w.take 2).length = 2 := by
      rw [List.length_take]
      omega
    simp [this, upperL_all_upper _ htake]
  simp [hvalid]

/-- A two-word all-letter name contributes the uppercased initials of its
two words. -/
theorem deriveCode_two_words (w1 w2 : LC) (h1 : w1.all isAsciiLetter = true)
    (h1ne : w1 ≠ []) (h2 : w2.all isAsciiLetter = true) (h2ne : w2 ≠ []) :
    deriveCode (w1 ++ ' ' :: w2) = some (upperL [w1.headD ' ', w2.headD ' ']) := by
  unfold deriveCode
  rw [splitWs_two w1 w2 (all_letters_no_space w1 h1) h1ne (all_letters_no_space w2 h2) h2ne]
  have hh1 : isAsciiLetter (w1.headD ' ') = true := by
    cases w1 with
    | nil => exact absurd rfl h1ne
    | cons c r => simpa using (List.all_eq_true.1 h1) c (by simp)
  have hh2 : isAsciiLetter (w2.headD ' ') = true := by
    cases w2 with
    | nil => exact absurd rfl h2ne
    | cons c r => simpa using (List.all_eq_true.1 h2) c (by simp)
  have hboth : ([w1.headD ' ', w2.headD ' '] : LC).all isAsciiLetter = true := by
    rw [List.all_cons, List.all_cons, List.all_nil, hh1, hh2]
    rfl
  have hvalid : isValidCode (upperL [w1.headD ' ', w2.headD ' ']) = true := by
    unfold isValidCode
    rw [upperL_length, upperL_all_upper _ hboth]
    rfl
  simp only [hvalid, if_true]

/-! ## Replacement search (lines 409-565) -/

def isOpenerC (c : Char) : Bool := c == '[' || c == '('

def isCloserC (c : Char) : Bool := c == ']' || c == ')'

/-- The `.*?[\])]` part of the bracket-stripping pattern: shortest run of
non-newline characters followed by a closing bracket; returns the text
after the closer. -/
def lazyClose : LC → Option LC
  | [] => none
  | c :: rest =>
    if isCloserC c then some rest
    else if c = '\n' then none
    else lazyClose rest

/-- One anchored attempt of `\s*[\[(].*?[\])]`: greedy whitespace, an
opening bracket, a lazily closed segment.  Returns the rest of the string
after the match. -/
def matchBrk (s : LC) : Option LC :=
  match s.dropWhile pyIsSpace with
  | c :: r => if isOpenerC c then lazyClose r else none
  | [] => none

/-- `re.sub(r"\s*[\[(].*?[\])]", "", title)` (line 412): remove every
leftmost match, resuming after each removal.  The fuel (always sufficient
at `length + 1` since a match consumes at least two characters) makes the
recursion structural. -/
def stripBrkAux : Nat → LC → LC
  | 0, s => s
  | _ + 1, [] => []
  | fuel + 1, c :: rest =>
    match matchBrk (c :: rest) with
    | some r => stripBrkAux fuel r
    | none => c :: stripBrkAux fuel rest

def stripBrackets (s : LC) : LC := stripBrkAux (s.length + 1) s

/-- Replace every maximal run of characters satisfying `p` by one space
(the two `re.sub(..., " ", ...)` collapses of lines 413-414). -/
def collapseAux (p : Char → Bool) (inRun : Bool) : LC → LC
  | [] => []
  | c :: r =>
    if p c then
      if inRun then collapseAux p true r else ' ' :: collapseAux p true r
    else c :: collapseAux p false r

def isTNR (c : Char) : Bool := c == '\t' || c == '\n' || c == '\r'

/-- `normalize_title_for_search` (lines 409-415). -/
def normalizeTitleForSearch (title : LC) : LC :=
  stripWs (collapseAux pyIsSpace false (collapseAux isTNR false (stripBrackets title)))

/-- Lowercase ASCII alphanumeric, the token class `[a-z0-9]` of
`tokenize` after lowercasing. -/
def isLowerAlnum (c : Char) : Bool :=
  decide (97 ≤ c.toNat ∧ c.toNat ≤ 122) || decide (48 ≤ c.toNat ∧ c.toNat ≤ 57)

/-- `tokenize` (line 417): lowercase alphanumeric runs. -/
def tokenize (s : LC) : List LC := splitRunsAux isLowerAlnum [] (lowerL s)

/-- `score_title_similarity` (lines 421-429): Jaccard similarity of the
token sets. -/
def scoreTitleSimilarity (a b : LC) : ℚ :=
  let ta := (tokenize a).dedup
  let tb := (tokenize b).dedup
  if ta.isEmpty || tb.isEmpty then 0
  else
    let inter := (ta.filter (fun w => decide (w ∈ tb))).length
    let union := (ta ++ tb.filter (fun w => decide (w ∉ ta))).length
    if union = 0 then 0 else Rat.divInt (inter : Int) (union : Int)

/-- `is_latin_dominant` (lines 434-440), on the ASCII fragment of
`str.isalpha`. -/
def isLatinDominant (title : LC) : Bool :=
  let letters := title.filter (fun c => c.isAlpha)
  if letters.isEmpty then false
  else
    let latin := letters.filter (fun c => 97 ≤ (toLowerC c).toNat && (toLowerC c).toNat ≤ 122)
    decide (Rat.divInt (latin.length : Int) (letters.length : Int) ≥ Rat.divInt 7 10)

def unknownTitleLit : LC := "unknown title".toList

/-- `title_looks_noise` (lines 442-450). -/
def titleLooksNoise (originalLatin : Bool) (candidate : LC) : Bool :=
  if !originalLatin then false
  else if litAt unknownTitleLit (lowerL candidate) then true
  else if !isLatinDominant candidate then true
  else false

/-- One entry of a result's `formats` list, reduced to its `acodec`
field. -/
structure Fmt where
  acodec : Option LC
deriving DecidableEq, Repr

def noneLit : LC := "none".toList

/-- `extract_best_audio_codec` (lines 452-462): first format whose
`acodec` is truthy and not `"none"`. -/
def extractBestAudioCodec : List Fmt → Option LC
  | [] => none
  | f :: fs =>
    match f.acodec with
    | some a => if !a.isEmpty && !(a == noneLit) then some a else extractBestAudioCodec fs
    | none => extractBestAudioCodec fs

def MIN_FALLBACK_DURATION : Int := 40

def DURATION_TOLERANCE : ℚ := 1 / 4

/-- `duration_within` (lines 464-474).  An unknown candidate duration is
always unsuitable; otherwise enforce the 40-second floor and, when an
expected duration exists, the ±25% band. -/
def durationWithin (expected candidate : Option Int) : Bool :=
  match candidate with
  | none => false
  | some c =>
    if c < MIN_FALLBACK_DURATION then false
    else
      match expected with
      | none => true
      | some e =>
        decide ((e : ℚ) * (1 - DURATION_TOLERANCE) ≤ (c : ℚ) ∧
          (c : ℚ) ≤ (e : ℚ) * (1 + DURATION_TOLERANCE))

/-- One parsed line of the search's JSON output, restricted to the fields
the source reads (`id`, `title`, `duration`, `formats`).  A `duration`
field that is absent or not an integer is `none` (line 538). -/
structure Cand where
  id : LC
  title : LC
  duration : Option Int
  formats : List Fmt
deriving DecidableEq, Repr

/-- The candidate-collection filter of lines 522-528: truthy `id` and
`title`, and not the failed video's own identifier. -/
def collectCandidates (failedVid : Option LC) (results : List Cand) : List Cand :=
  results.filter (fun c => !c.id.isEmpty && !c.title.isEmpty && !(some c.id == failedVid))

/-- The three rejection filters of lines 536-550 (noise, duration,
codec). -/
def filterCandidates (originalLatin : Bool) (expectedDuration : Option Int)
    (candidates : List Cand) : List Cand :=
  candidates.filter (fun c =>
    !titleLooksNoise originalLatin c.title && durationWithin expectedDuration c.duration &&
      (extractBestAudioCodec c.formats).isSome)

/-- Stable descending insertion by rational key: the model of Python's
stable `list.sort(key=..., reverse=True)` (line 559). -/
def insertDesc (key : Cand → ℚ) (x : Cand) : List Cand → List Cand
  | [] => [x]
  | y :: ys => if key y ≤ key x then x :: y :: ys else y :: insertDesc key x ys

def sortDesc (key : Cand → ℚ) : List Cand → List Cand
  | [] => []
  | x :: xs => insertDesc key x (sortDesc key xs)

/-- Python truthiness chain `a or b` for strings. -/
def orElseLC (a : Option LC) (b : LC) : LC :=
  match a with
  | some s => if s.isEmpty then b else s
  | none => b

/-- `search_for_replacement` (lines 476-565).  The external
`yt-dlp -j ytsearchN:…` call is the boundary: `results` is its parsed
JSON-per-line output (a failing search command is the empty list together
with the upstream `rc ≠ 0` early return, which yields `none` just as an
empty result list does; cookies, rate limits and sleep flags only shape
the external command). -/
def searchForReplacement (originalTitle : Option LC) (failedUrl : LC) (preferMusic : Bool)
    (results : List Cand) (expectedDuration : Option Int) : Option LC :=
  let failedVid := getVideoId failedUrl
  if !truthyO originalTitle && !truthyO failedVid then none
  else
    let queryTitle := normalizeTitleForSearch (orElseLC originalTitle (orElseLC failedVid []))
    if queryTitle.isEmpty then none
    else
      let candidates := collectCandidates failedVid results
      if candidates.isEmpty then none
      else
        let originalLatin := match originalTitle with
          | some t => if t.isEmpty then false else isLatinDominant t
          | none => false
        let filtered := filterCandidates originalLatin expectedDuration candidates
        if filtered.isEmpty then none
        else
          let ranked := match originalTitle with
            | some t =>
              if t.isEmpty then filtered
              else sortDesc (fun c => scoreTitleSimilarity t c.title) filtered
            | none => filtered
          match ranked with
          | [] => none
          | best :: _ =>
            if best.id.isEmpty then none
            else some ((if preferMusic then musicBase else wwwBase) ++ best.id)

theorem mem_insertDesc (key : Cand → ℚ) (x : Cand) :
    ∀ (l : List Cand) (y : Cand), y ∈ insertDesc key x l → y = x ∨ y ∈ l
  | [], y, h => by
    simp only [insertDesc, List.mem_singleton] at h
    exact Or.inl h
  | z :: zs, y, h => by
    by_cases hc : key z ≤ key x
    · simp only [insertDesc, if_pos hc] at h
      rcases List.mem_cons.1 h with h | h
      · exact Or.inl h
      · exact Or.inr h
    · simp only [insertDesc, if_neg hc] at h
      rcases List.mem_cons.1 h with h | h
      · exact Or.inr (by simp [h])
      · rcases mem_insertDesc key x zs y h with h | h
        · exact Or.inl h
        · exact Or.inr (by simp [h])

theorem mem_sortDesc (key : Cand → ℚ) :
    ∀ (l : List Cand) (y : Cand), y ∈ sortDesc key l → y ∈ l
  | [], y, h => by simp [sortDesc] at h
  | x :: xs, y, h => by
    rcases mem_insertDesc key x (sortDesc key xs) y h with h | h
    · simp [h]
    · exact List.mem_cons_of_mem x (mem_sortDesc key xs y h)

/-- Shape of any successful replacement search: the returned URL is the
preferred base followed by the `id` of some candidate that survived
collection and filtering. -/
theorem searchForReplacement_shape (originalTitle : Option LC) (failedUrl : LC)
    (preferMusic : Bool) (results : List Cand) (expectedDuration : Option Int) (r : LC)
    (h : searchForReplacement originalTitle failedUrl preferMusic results expectedDuration =
      some r) :
    ∃ c : Cand, c ∈ collectCandidates (getVideoId failedUrl) results ∧
      r = (if preferMusic then musicBase else wwwBase) ++ c.id := by
  unfold searchForReplacement at h
  by_cases h1 : (!truthyO originalTitle && !truthyO (getVideoId failedUrl)) = true
  · rw [if_pos h1] at h; cases h
  · rw [if_neg h1] at h
    set q := normalizeTitleForSearch
      (orElseLC originalTitle (orElseLC (getVideoId failedUrl) [])) with hq
    by_cases h2 : q.isEmpty = true
    · rw [if_pos h2] at h; cases h
    · rw [if_neg h2] at h
      set cands := collectCandidates (getVideoId failedUrl) results with hcands
      by_cases h3 : cands.isEmpty = true
      · rw [if_pos h3] at h; cases h
      · rw [if_neg h3] at h
        set ol := (match originalTitle with
          | some t => if t.isEmpty then false else isLatinDominant t
          | none => false) with hol
        set filtered := filterCandidates ol expectedDuration cands with hfil
        by_cases h4 : filtered.isEmpty = true
        · rw [if_pos h4] at h; cases h
        · rw [if_neg h4] at h
          set ranked := (match originalTitle with
            | some t =>
              if t.isEmpty then filtered
              else sortDesc (fun c => scoreTitleSimilarity t c.title) filtered
            | none => filtered) with hranked
          have hmem : ∀ y : Cand, y ∈ ranked → y ∈ filtered := by
            intro y hy
            rw [hranked] at hy
            cases originalTitle with
            | none => exact hy
            | some t =>
              by_cases ht : t.isEmpty = true
              · simpa [ht] using hy
              · simp only [ht, Bool.false_eq_true, if_false] at hy
                exact mem_sortDesc _ filtered y hy
          cases hr : ranked with
          | nil => rw [hr] at h; cases h
          | cons best tl =>
            rw [hr] at h
            have h' : (if best.id.isEmpty = true then (none : Option LC)
                else some ((if preferMusic then musicBase else wwwBase) ++ best.id)) = some r := h
            by_cases h5 : best.id.isEmpty = true
            · rw [if_pos h5] at h'; cases h'
            · rw [if_neg h5] at h'
              refine ⟨best, ?_, ?_⟩
              · have : best ∈ filtered := hmem best (by rw [hr]; exact List.mem_cons_self _ _)
                rw [hfil] at this
                exact List.mem_of_mem_filter this
              · cases h'; rfl

/-! ## The download executor (`download_track`, lines 237-407) -/

/-- The outcome tuple
`(success, url_used, video_id, final_path, error_message)` of
`download_track`. -/
structure Outcome where
  ok : Bool
  urlUsed : LC
  vid : Option LC
  path : Option LC
  err : Option LC
deriving DecidableEq, Repr

/-- The `[yt-dlp stderr] ` prefix of `error_message` (line 289). -/
def errPrefix : LC := "[yt-dlp stderr] ".toList

/-- The external world of one `download_track` invocation: the first
attempt's result, the per-hint geo retries, the metadata probe's parsed
duration (`none` for any failed, empty or unparseable probe, whose
exceptions the source swallows), the parsed search results, and the
replacement download's result. -/
structure DTEnv where
  first : ToolResult
  geo : LC → ToolResult
  probeDuration : Option Int
  searchResults : List Cand
  second : ToolResult

/-- State carried out of the region-escalation block:
`(rc, final_path, error_message)`. -/
def regionPhase (env : DTEnv) : Int × Option LC × Option LC :=
  let rc := env.first.rc
  let stderr := env.first.err
  let finalPath : Option LC := if !env.first.out.isEmpty && rc == 0 then some env.first.out else none
  let errorMessage : Option LC := if rc != 0 && !stderr.isEmpty then some (errPrefix ++ stderr) else none
  if rc != 0 && !stderr.isEmpty &&
      decide (classifyFailure ((errorMessage.getD [])) = FailCategory.region_blocked) then
    match availInCapture stderr with
    | none => (rc, finalPath, errorMessage)
    | some raw =>
      match (ladderRun env.geo 0 (parseCountryList raw)).2 with
      | some r => (0, some r.2, none)
      | none => (rc, finalPath, errorMessage)
  else (rc, finalPath, errorMessage)

/-- `download_track`: first attempt, region escalation, then the opt-in
replacement fallback.  `vid` is `get_video_id` of the submitted URL
except on a successful replacement, where the outcome carries the
replacement URL and its own extracted identifier. -/
def downloadTrack (env : DTEnv) (url : LC) (preferMusic dryRun retryFlag : Bool)
    (originalTitle : Option LC) : Outcome :=
  let st := regionPhase env
  let rc1 := st.1
  let fp1 := st.2.1
  let err1 := st.2.2
  let vid := getVideoId url
  if !dryRun && retryFlag && rc1 != 0 && truthyO err1 &&
      decide (classifyFailure (err1.getD []) = FailCategory.unavailable) then
    match searchForReplacement originalTitle url preferMusic env.searchResults
      env.probeDuration with
    | some replacementUrl =>
      if !replacementUrl.isEmpty && !(replacementUrl == url) then
        if env.second.rc == 0 && !env.second.out.isEmpty then
          ⟨true, replacementUrl, getVideoId replacementUrl, some env.second.out, none⟩
        else ⟨rc1 == 0, url, vid, fp1, err1⟩
      else ⟨rc1 == 0, url, vid, fp1, err1⟩
    | none => ⟨rc1 == 0, url, vid, fp1, err1⟩
  else ⟨rc1 == 0, url, vid, fp1, err1⟩

/-! ## The per-playlist scheduler (`process_playlist`, lines 587-759)
and the run coordinator (`main`, lines 762-855)

The build phase walks the track list single-threaded, resolving each
track and partitioning against the shared index; the consume phase folds
the outcomes of the submitted tasks.  `as_completed` yields outcomes in a
nondeterministic order; the model consumes them in submission order (the
facts proved below — invocation counts, key sets, failure counts — are
insensitive to the order). -/

/-- Build-phase state: submitted URLs, the `url -> title` map, the skip
counter and the reused existing paths, in loop order. -/
structure BuildSt where
  urls : List LC
  titleMap : List (LC × LC)
  skipped : Nat
  files : List LC
deriving Repr

/-- The track loop of lines 614-640. -/
def buildPhase (m : VidMap) : List Track → BuildSt
  | [] => ⟨[], [], 0, []⟩
  | t :: ts =>
    let rest := buildPhase m ts
    match resolveTrack t with
    | none => rest
    | some (url, vid) =>
      if (alLookup m vid).isSome then
        { rest with
          skipped := rest.skipped + 1
          files := match alLookup m vid with
            | some p => p :: rest.files
            | none => rest.files }
      else
        { rest with
          urls := url :: rest.urls
          titleMap := match t.title with
            | some ttl => if !url.isEmpty && !ttl.isEmpty then (url, ttl) :: rest.titleMap
                else rest.titleMap
            | none => rest.titleMap }

/-- Consume-phase state: the shared index, the playlist's materialized
files and the failed URLs. -/
structure ConsSt where
  m : VidMap
  files : List LC
  failed : List LC
deriving Repr

/-- Lines 706-720: on success insert `videoId -> finalPath` and append the
file; on failure record the outcome's URL. -/
def consumeStep (st : ConsSt) (o : Outcome) : ConsSt :=
  if o.ok && truthyO o.vid && o.path.isSome then
    { st with
      m := dictSet st.m (o.vid.getD []) (o.path.getD [])
      files := st.files ++ [o.path.getD []] }
  else { st with failed := st.failed ++ [o.urlUsed] }

def consumePhase (dl : LC → Outcome) : ConsSt → List LC → ConsSt
  | st, [] => st
  | st, u :: us => consumePhase dl (consumeStep st (dl u)) us

/-- Per-playlist result: counters, the updated shared index, and the list
of submitted URLs (one Executor invocation each). -/
structure PlRes where
  succ : Nat
  failed : List LC
  skipped : Nat
  m : VidMap
  invoked : List LC
deriving Repr

/-- `process_playlist` for one loaded playlist (`none` models a file
rejected by `load_playlist`, which contributes zeros, line 598-599). -/
def processPlaylist (dl : LC → Outcome) (m : VidMap) : Option (List Track) → PlRes
  | none => ⟨0, [], 0, m, []⟩
  | some tracks =>
    if (buildPhase m tracks).urls.isEmpty then ⟨0, [], (buildPhase m tracks).skipped, m, []⟩
    else
      ⟨(buildPhase m tracks).urls.length -
          (consumePhase dl ⟨m, (buildPhase m tracks).files, []⟩ (buildPhase m tracks).urls).failed.length,
        (consumePhase dl ⟨m, (buildPhase m tracks).files, []⟩ (buildPhase m tracks).urls).failed,
        (buildPhase m tracks).skipped,
        (consumePhase dl ⟨m, (buildPhase m tracks).files, []⟩ (buildPhase m tracks).urls).m,
        (buildPhase m tracks).urls⟩

/-- Run-wide totals (lines 816-828). -/
structure RunSt where
  m : VidMap
  totSucc : Nat
  totFail : Nat
  totSkip : Nat
  allFailed : List LC
  invoked : List LC
deriving Repr

def runStep (dl : LC → Outcome) (st : RunSt) (pl : Option (List Track)) : RunSt :=
  ⟨(processPlaylist dl st.m pl).m, st.totSucc + (processPlaylist dl st.m pl).succ,
    st.totFail + (processPlaylist dl st.m pl).failed.length,
    st.totSkip + (processPlaylist dl st.m pl).skipped,
    st.allFailed ++ (processPlaylist dl st.m pl).failed,
    st.invoked ++ (processPlaylist dl st.m pl).invoked⟩

def runPlaylistsFrom (dl : LC → Outcome) : RunSt → List (Option (List Track)) → RunSt
  | st, [] => st
  | st, pl :: pls => runPlaylistsFrom dl (runStep dl st pl) pls

/-- The playlist loop of `main`, started from the scanned index. -/
def runPlaylists (dl : LC → Outcome) (m : VidMap) (pls : List (Option (List Track))) : RunSt :=
  runPlaylistsFrom dl ⟨m, 0, 0, 0, [], []⟩ pls

/-- `main`'s exit status (lines 794-855): `2` when the input root does not
exist; with no playlist files found, `0` exactly when the pre-scan found
existing tracks, else `1`; otherwise `1` exactly when some track failed. -/
def mainExit (rootExists : Bool) (libFiles : List (LC × LC))
    (pls : List (Option (List Track))) (dl : LC → Outcome) : Nat :=
  if !rootExists then 2
  else if pls.isEmpty then (if !(findExistingDownloads libFiles).isEmpty then 0 else 1)
  else if !(runPlaylists dl (findExistingDownloads libFiles) pls).allFailed.isEmpty then 1
  else 0

/-! ## The progress/ETA estimator (lines 722-741) -/

/-- The blended ETA computed after a task completes: `none` is the
`float('inf')` placeholder rendered `--:--`.  `total` is the task count,
`succ`/`failed` the completions so far, `bytes` the accumulated size of
successful downloads, `elapsed` the wall-clock seconds. -/
def etaOf (total succ failed : Nat) (bytes elapsed : ℚ) : Option ℚ :=
  let processed := succ + failed
  let remaining : Nat := total - processed
  let etaTime : Option ℚ := if processed = 0 then none
    else some (elapsed / (processed : ℚ) * (remaining : ℚ))
  if 0 < succ ∧ 0 < bytes ∧ 0 < elapsed then
    let avgSpeed := bytes / elapsed
    let avgSize := bytes / (succ : ℚ)
    let remBytes := avgSize * (remaining : ℚ)
    if 0 < avgSpeed then
      let etaSize := remBytes / avgSpeed
      if 1 < processed then
        some (min (max etaSize 0) ((elapsed / (processed : ℚ) * (remaining : ℚ)) * 3))
      else some etaSize
    else etaTime
  else etaTime

/-! ## Claim C4: classifier rule order -/

/-- C4 (amended): `classify_failure` applies case-insensitive substring
rules in order — sign-in/age-gate, else premium, else region/uploader,
else generic unavailability, else `other`; consequently a text containing
both a region phrase and the generic unavailability phrase, and matching
no earlier rule, is classified `region_blocked`. -/
theorem classify_failure_ordered_rules (s : LC) :
    (classifyFailure s = .age_restricted ↔ hasAgePhrase s = true) ∧
    (classifyFailure s = .premium_only ↔
      (hasAgePhrase s = false ∧ hasPremiumPhrase s = true)) ∧
    (classifyFailure s = .region_blocked ↔
      (hasAgePhrase s = false ∧ hasPremiumPhrase s = false ∧ hasRegionPhrase s = true)) ∧
    (classifyFailure s = .unavailable ↔
      (hasAgePhrase s = false ∧ hasPremiumPhrase s = false ∧ hasRegionPhrase s = false ∧
        hasUnavailablePhrase s = true)) ∧
    (classifyFailure s = .other ↔
      (hasAgePhrase s = false ∧ hasPremiumPhrase s = false ∧ hasRegionPhrase s = false ∧
        hasUnavailablePhrase s = false)) ∧
    (hasRegionPhrase s = true → hasUnavailablePhrase s = true → hasAgePhrase s = false →
      hasPremiumPhrase s = false → classifyFailure s = .region_blocked) := by
  by_cases ha : containsSub agePhrase (lowerL s) = true <;>
    by_cases hp1 : containsSub premiumPhrase1 (lowerL s) = true <;>
    by_cases hp2 : containsSub premiumPhrase2 (lowerL s) = true <;>
    by_cases hr1 : containsSub regionPhrase1 (lowerL s) = true <;>
    by_cases hr2 : containsSub regionPhrase2 (lowerL s) = true <;>
    by_cases hu : containsSub unavailablePhrase (lowerL s) = true <;>
    simp [classifyFailure, hasAgePhrase, hasPremiumPhrase, hasRegionPhrase,
      hasUnavailablePhrase, ha, hp1, hp2, hr1, hr2, hu]

def c4CexText : LC :=
  ("sign in to confirm your age. uploader has not made this video available in " ++
    "your country. video unavailable").toList

/-- C4 counterexample: this diagnostic contains both a region phrase and
the generic unavailability phrase, yet is classified `age_restricted`
(the age-gate rule fires first), refuting "any text containing both … is
classified region_blocked". -/
theorem classify_failure_region_overlap_cex :
    hasRegionPhrase c4CexText = true ∧ hasUnavailablePhrase c4CexText = true ∧
      classifyFailure c4CexText = .age_restricted ∧
      classifyFailure c4CexText ≠ .region_blocked := by decide

def c4WitnessText : LC :=
  "uploader has not made this video available in your country. video unavailable".toList

/-- Witness for C4: a text matching the region and unavailability phrases
and no earlier rule is classified `region_blocked`. -/
theorem classify_failure_ordered_rules_witness :
    hasRegionPhrase c4WitnessText = true ∧ hasUnavailablePhrase c4WitnessText = true ∧
      hasAgePhrase c4WitnessText = false ∧ hasPremiumPhrase c4WitnessText = false ∧
      classifyFailure c4WitnessText = .region_blocked :=
  ⟨by decide, by decide, by decide, by decide,
    (classify_failure_ordered_rules c4WitnessText).2.2.2.2.2 (by decide) (by decide)
      (by decide) (by decide)⟩

/-! ## Claim C10: candidates with unknown duration -/

/-- C10: `duration_within` returns `False` for an unknown candidate
duration whatever the expected duration (including no expected duration),
so the replacement-search filter rejects every candidate without a
parseable integer duration. -/
theorem duration_unknown_rejected :
    (∀ e : Option Int, durationWithin e none = false) ∧
    (∀ (originalLatin : Bool) (e : Option Int) (cands : List Cand),
      (filterCandidates originalLatin e cands).all (fun c => c.duration.isSome) = true) := by
  constructor
  · intro e; rfl
  · intro ol e cands
    rw [List.all_eq_true]
    intro c hc
    have hmem := List.mem_filter.1 hc
    have hpred := hmem.2
    simp only [Bool.and_eq_true] at hpred
    have hdw : durationWithin e c.duration = true := hpred.1.2
    cases hd : c.duration with
    | none => rw [hd] at hdw; cases hdw
    | some d => simp

/-! ## Claim C5: ETA blending -/

/-- C5: with no completed task the ETA is the unknown placeholder; with
exactly one completed task, a success with nonzero bytes and elapsed
time, the ETA is the unclamped throughput estimate
`remaining * averageBytesPerSuccess / averageBytesPerSecond`; with more
than one completed task (and both estimates available) the ETA is the
throughput estimate clamped to `[0, 3 × (elapsed/processed*remaining)]`. -/
theorem eta_blend_spec (total succ failed : Nat) (bytes elapsed : ℚ) :
    (succ + failed = 0 → etaOf total succ failed bytes elapsed = none) ∧
    (succ = 1 → failed = 0 → 0 < bytes → 0 < elapsed →
      etaOf total succ failed bytes elapsed =
        some (((total - 1 : Nat) : ℚ) * (bytes / 1) / (bytes / elapsed))) ∧
    (1 < succ + failed → 0 < succ → 0 < bytes → 0 < elapsed →
      etaOf total succ failed bytes elapsed =
        some (min (max (((total - (succ + failed) : Nat) : ℚ) * (bytes / (succ : ℚ)) /
            (bytes / elapsed)) 0)
          (3 * (elapsed / ((succ + failed : Nat) : ℚ) * ((total - (succ + failed) : Nat) : ℚ))))) := by
  refine ⟨?_, ?_, ?_⟩
  · intro h
    have hs : succ = 0 := by omega
    have hf : failed = 0 := by omega
    subst hs; subst hf
    simp [etaOf]
  · intro hs hf hb he
    subst hs; subst hf
    have hspeed : 0 < bytes / elapsed := div_pos hb he
    simp only [etaOf]
    rw [if_pos ⟨Nat.one_pos, hb, he⟩, if_pos hspeed]
    have : ¬(1 < 1 + 0) := by omega
    rw [if_neg this]
    congr 1
    rw [mul_comm (bytes / ((1 + 0 : Nat) : ℚ))]
    norm_num
  · intro hproc hs hb he
    have hspeed : 0 < bytes / elapsed := div_pos hb he
    simp only [etaOf]
    rw [if_pos ⟨hs, hb, he⟩, if_pos hspeed, if_pos hproc]
    congr 2
    · rw [mul_comm (bytes / (succ : ℚ))]
    · rw [mul_comm]

/-- Witness for C5: a concrete evaluation of each clause. -/
theorem eta_blend_spec_witness :
    etaOf 10 0 0 0 0 = none ∧
      ((0 : ℚ) < 100 ∧ (0 : ℚ) < 4 ∧
        etaOf 10 1 0 100 4 = some (((10 - 1 : Nat) : ℚ) * (100 / 1) / (100 / 4))) ∧
      (1 < 3 + 1 ∧
        etaOf 10 3 1 300 6 = some (min (max (((10 - (3 + 1) : Nat) : ℚ) * (300 / (3 : ℚ)) /
            (300 / 6)) 0)
          (3 * (6 / ((3 + 1 : Nat) : ℚ) * ((10 - (3 + 1) : Nat) : ℚ))))) :=
  ⟨(eta_blend_spec 10 0 0 0 0).1 rfl,
    ⟨by norm_num, by norm_num,
      (eta_blend_spec 10 1 0 100 4).2.1 rfl rfl (by norm_num) (by norm_num)⟩,
    ⟨by norm_num,
      (eta_blend_spec 10 3 1 300 6).2.2 (by norm_num) (by norm_num) (by norm_num)
        (by norm_num)⟩⟩

/-! ## Claim C7: canonical, consistent, idempotent resolution -/

/-- C7: a track with a bare well-formed identifier resolves to the
canonical watch URL, and extracting the identifier from that URL returns
the same identifier; a track with a bare URL resolves to that URL paired
with its extracted identifier (so extraction of the resolved URL yields
the videoId by construction); and the resolution step is idempotent:
applied to an already-resolved pair it changes nothing. -/
theorem resolve_canonical_idempotent :
    (∀ (t : Track) (v : LC), t.videoId = some v → wf11 v → truthyO t.url = false →
      resolveTrack t = some (wwwBase ++ v, v) ∧ getVideoId (wwwBase ++ v) = some v) ∧
    (∀ (t : Track) (u v : LC), t.url = some u → u ≠ [] → truthyO t.videoId = false →
      getVideoId u = some v → resolveTrack t = some (u, v)) ∧
    (∀ p : Option LC × Option LC, resolveStep (resolveStep p) = resolveStep p) := by
  refine ⟨?_, ?_, resolveStep_idem⟩
  · intro t v hvid hwf hurl
    have hvne : v.isEmpty = false := by
      rw [List.isEmpty_eq_false]
      intro h0
      rw [h0] at hwf
      simp [wf11] at hwf
    have hv : truthyO (some v) = true := by simp [hvne]
    have hstep : resolveStep (t.url, t.videoId) = (some (wwwBase ++ v), some v) := by
      unfold resolveStep
      rw [hvid]
      simp only [hv, hurl, Bool.not_false, Bool.and_self, if_true, Option.getD_some,
        truthyO_wwwBase_append, Bool.not_true, Bool.and_false, Bool.false_eq_true, if_false]
    refine ⟨?_, getVideoId_wwwBase v hwf⟩
    unfold resolveTrack
    simp only [hstep, truthyO_wwwBase_append, hv, Bool.and_self, if_true, Option.getD_some]
  · intro t u v hurl hune hvid hg
    have htu : truthyO (some u) = true := by simp [hune]
    have hvne : truthyO (some v) = true := by simp [getVideoId_ne_nil u v hg]
    have hstep : resolveStep (t.url, t.videoId) = (some u, some v) := by
      unfold resolveStep
      rw [hurl]
      simp only [hvid, htu, Bool.not_false, Bool.and_false, Bool.false_and, Bool.and_true,
        Bool.false_eq_true, if_false, Bool.not_true, Bool.true_and, if_true, Option.getD_some,
        hg]
    unfold resolveTrack
    simp only [hstep, htu, hvne, Bool.and_self, if_true, Option.getD_some]

/-- Witness for C7: a bare identifier and a bare short-URL track, both
resolved concretely. -/
theorem resolve_canonical_idempotent_witness :
    wf11 "abcdefghijk".toList ∧
      resolveTrack (Track.mk none none (some "abcdefghijk".toList)) =
        some (wwwBase ++ "abcdefghijk".toList, "abcdefghijk".toList) ∧
      getVideoId (wwwBase ++ "abcdefghijk".toList) = some "abcdefghijk".toList ∧
      resolveTrack (Track.mk none (some "https://youtu.be/abcdefghijk".toList) none) =
        some ("https://youtu.be/abcdefghijk".toList, "abcdefghijk".toList) :=
  ⟨by decide,
    ((resolve_canonical_idempotent).1 (Track.mk none none (some "abcdefghijk".toList))
      "abcdefghijk".toList rfl (by decide) rfl).1,
    ((resolve_canonical_idempotent).1 (Track.mk none none (some "abcdefghijk".toList))
      "abcdefghijk".toList rfl (by decide) rfl).2,
    (resolve_canonical_idempotent).2.1
      (Track.mk none (some "https://youtu.be/abcdefghijk".toList) none)
      "https://youtu.be/abcdefghijk".toList "abcdefghijk".toList rfl (by decide) rfl
      (by decide)⟩

/-! ## Claim C6: region-hint derivation and retry ladder -/

/-- C6: for every country list parsed after the `available in` marker the
ladder attempts at most 5 hints; the attempted hints are exactly the
derived codes of the listed names capped at 5 and cut at the first
success (names yielding no valid code are skipped without consuming a
retry); a single all-letter token of 2-3 letters is uppercased whole, a
longer single token contributes its first two letters uppercased, a
two-word name the uppercased initials of its words; "Germany" gives
"GE", "United States" gives "US", and the single-letter "A" gives no
hint. -/
theorem region_hint_ladder_spec (raw : LC) (geo : LC → ToolResult) :
    ((ladderRun geo 0 (parseCountryList raw)).1).length ≤ 5 ∧
    (ladderRun geo 0 (parseCountryList raw)).1 =
      upToIncl (geoOk geo) (((parseCountryList raw).filterMap deriveCode).take 5) ∧
    (∀ w : LC, w.all isAsciiLetter = true → w.length = 2 ∨ w.length = 3 →
      deriveCode w = some (upperL w)) ∧
    (∀ w : LC, w.all isAsciiLetter = true → 4 ≤ w.length →
      deriveCode w = some (upperL (w.take 2))) ∧
    (∀ w1 w2 : LC, w1.all isAsciiLetter = true → w1 ≠ [] → w2.all isAsciiLetter = true →
      w2 ≠ [] → deriveCode (w1 ++ ' ' :: w2) = some (upperL [w1.headD ' ', w2.headD ' '])) ∧
    deriveCode "Germany".toList = some "GE".toList ∧
    deriveCode "United States".toList = some "US".toList ∧
    deriveCode "A".toList = none := by
  refine ⟨ladderRun_length_le_five geo _, ?_, deriveCode_short, deriveCode_long,
    deriveCode_two_words, by decide, by decide, by decide⟩
  rw [ladderRun_attempts geo (parseCountryList raw) 0]

def c6Raw : LC := "Germany, United States, A, France".toList

def c6Geo : LC → ToolResult := fun _ => ⟨1, [], "blocked".toList⟩

/-- Witness for C6: the ladder on a concrete parsed country list with an
always-failing geo oracle, plus the three derivation rules at concrete
names. -/
theorem region_hint_ladder_spec_witness :
    (ladderRun c6Geo 0 (parseCountryList c6Raw)).1 =
      upToIncl (geoOk c6Geo) (((parseCountryList c6Raw).filterMap deriveCode).take 5) ∧
    deriveCode "usa".toList = some (upperL "usa".toList) ∧
    deriveCode "Germany".toList = some (upperL ("Germany".toList.take 2)) ∧
    deriveCode ("United".toList ++ ' ' :: "States".toList) =
      some (upperL ["United".toList.headD ' ', "States".toList.headD ' ']) :=
  ⟨(region_hint_ladder_spec c6Raw c6Geo).2.1,
    (region_hint_ladder_spec c6Raw c6Geo).2.2.1 "usa".toList (by decide) (by decide),
    (region_hint_ladder_spec c6Raw c6Geo).2.2.2.1 "Germany".toList (by decide) (by decide),
    (region_hint_ladder_spec c6Raw c6Geo).2.2.2.2.1 "United".toList "States".toList
      (by decide) (by decide) (by decide) (by decide)⟩

/-! ## Claim C9: one path per identifier -/

theorem consumePhase_nodup (dl : LC → Outcome) :
    ∀ (urls : List LC) (st : ConsSt), (keysOf st.m).Nodup →
      (keysOf (consumePhase dl st urls).m).Nodup
  | [], _, h => h
  | u :: us, st, h => by
    apply consumePhase_nodup dl us
    unfold consumeStep
    by_cases hc : ((dl u).ok && truthyO (dl u).vid && (dl u).path.isSome) = true
    · rw [if_pos hc]
      exact nodup_keys_dictSet _ _ _ h
    · rw [if_neg hc]
      exact h

theorem processPlaylist_nodup (dl : LC → Outcome) (m : VidMap) (pl : Option (List Track))
    (h : (keysOf m).Nodup) : (keysOf ((processPlaylist dl m pl).m)).Nodup := by
  cases pl with
  | none => exact h
  | some tracks =>
    cases he : (buildPhase m tracks).urls.isEmpty with
    | true =>
      simp only [processPlaylist, he, if_true]
      exact h
    | false =>
      simp only [processPlaylist, he, Bool.false_eq_true, if_false]
      exact consumePhase_nodup dl _ _ h

theorem runPlaylistsFrom_nodup (dl : LC → Outcome) :
    ∀ (pls : List (Option (List Track))) (st : RunSt), (keysOf st.m).Nodup →
      (keysOf (runPlaylistsFrom dl st pls).m).Nodup
  | [], _, h => h
  | pl :: pls, st, h =>
    runPlaylistsFrom_nodup dl pls _ (processPlaylist_nodup dl st.m pl h)

/-- C9: the dedup index maps each identifier to at most one path.  The
library scan has pairwise-distinct keys and returns, per identifier, the
first matching file's path (later duplicates on disk ignored); each
successful-outcome `dictSet` update preserves key distinctness; and the
index still has pairwise-distinct keys after any whole run over any
playlists. -/
theorem dedup_single_path_per_id :
    (∀ files : List (LC × LC), (keysOf (findExistingDownloads files)).Nodup) ∧
    (∀ (files : List (LC × LC)) (v : LC),
      alLookup (findExistingDownloads files) v =
        (files.find? (fun f => extractFileId f.1 == some v)).map Prod.snd) ∧
    (∀ (m : VidMap) (k v : LC), (keysOf m).Nodup → (keysOf (dictSet m k v)).Nodup) ∧
    (∀ (dl : LC → Outcome) (files : List (LC × LC)) (pls : List (Option (List Track))),
      (keysOf ((runPlaylists dl (findExistingDownloads files) pls).m)).Nodup) := by
  refine ⟨?_, ?_, nodup_keys_dictSet, ?_⟩
  · intro files
    exact scanAux_nodup files [] (by simp [keysOf])
  · intro files v
    rw [findExistingDownloads, scanAux_lookup files [] v]
    simp [alLookup]
  · intro dl files pls
    exact runPlaylistsFrom_nodup dl pls _ (scanAux_nodup files [] (by simp [keysOf]))

def c9Files : List (LC × LC) :=
  [("a [abcdefghijk].m4a".toList, "/library/pl/a [abcdefghijk].m4a".toList),
   ("b [abcdefghijk].m4a".toList, "/library/pl/b [abcdefghijk].m4a".toList),
   ("notes.txt".toList, "/library/notes.txt".toList)]

/-- Witness for C9: a concrete scan with an on-disk duplicate (first path
wins), and a concrete `dictSet` preservation instance. -/
theorem dedup_single_path_per_id_witness :
    (keysOf (findExistingDownloads c9Files)).Nodup ∧
      alLookup (findExistingDownloads c9Files) "abcdefghijk".toList =
        some "/library/pl/a [abcdefghijk].m4a".toList ∧
      (keysOf (dictSet [("abcdefghijk".toList, "p".toList)] "xyzXYZxyzXY".toList
        "q".toList)).Nodup :=
  ⟨dedup_single_path_per_id.1 c9Files,
    by
      rw [dedup_single_path_per_id.2.1 c9Files "abcdefghijk".toList]
      decide,
    dedup_single_path_per_id.2.2.1 [("abcdefghijk".toList, "p".toList)] "xyzXYZxyzXY".toList
      "q".toList (by decide)⟩

/-! ## Claim C8: the replacement search never returns the failed id -/

/-- C8: when the failed URL has an extractable identifier and every
search result carries a well-formed 11-character identifier, every
collected candidate's identifier differs from the failed one (results
carrying it are excluded before filtering and ranking), and any URL the
search returns embeds an identifier different from the failed one. -/
theorem replacement_never_failed_id (originalTitle : Option LC) (failedUrl : LC)
    (preferMusic : Bool) (results : List Cand) (expectedDuration : Option Int) (fvid : LC)
    (hf : getVideoId failedUrl = some fvid)
    (hwf : ∀ c ∈ results, wf11 c.id) :
    (∀ c ∈ collectCandidates (getVideoId failedUrl) results, c.id ≠ fvid) ∧
    (∀ r : LC, searchForReplacement originalTitle failedUrl preferMusic results
        expectedDuration = some r → getVideoId r ≠ some fvid) := by
  have hexcl : ∀ c ∈ collectCandidates (getVideoId failedUrl) results, c.id ≠ fvid := by
    intro c hc heq
    have hpred := (List.mem_filter.1 hc).2
    rw [hf] at hpred
    simp only [Bool.and_eq_true, Bool.not_eq_true', beq_eq_false_iff_ne, ne_eq,
      Option.some.injEq] at hpred
    exact hpred.2 heq
  refine ⟨hexcl, ?_⟩
  intro r hr heq
  obtain ⟨c, hc, hshape⟩ := searchForReplacement_shape originalTitle failedUrl preferMusic
    results expectedDuration r hr
  have hcwf : wf11 c.id := hwf c (List.mem_of_mem_filter hc)
  have hgvi : getVideoId r = some c.id := by
    rw [hshape]
    cases preferMusic with
    | true => simpa using getVideoId_musicBase c.id hcwf
    | false => simpa using getVideoId_wwwBase c.id hcwf
  rw [hgvi] at heq
  exact hexcl c hc (Option.some.injEq _ _ ▸ heq)

def c8Url : LC := "https://www.youtube.com/watch?v=abcdefghijk".toList

def c8Results : List Cand :=
  [⟨"abcdefghijk".toList, "song".toList, some 100, [⟨some "opus".toList⟩]⟩,
   ⟨"LMNOPQRSTUV".toList, "song".toList, some 100, [⟨some "opus".toList⟩]⟩]

/-- Witness for C8: with a result set containing the failed identifier
itself and one other candidate, the search returns the other candidate's
URL, whose embedded identifier is not the failed one. -/
theorem replacement_never_failed_id_witness :
    getVideoId c8Url = some "abcdefghijk".toList ∧
    searchForReplacement (some "song".toList) c8Url true c8Results none =
      some (musicBase ++ "LMNOPQRSTUV".toList) ∧
    getVideoId (musicBase ++ "LMNOPQRSTUV".toList) ≠ some "abcdefghijk".toList :=
  ⟨by decide, by decide,
    (replacement_never_failed_id (some "song".toList) c8Url true c8Results none
      "abcdefghijk".toList (by decide) (by decide)).2
      (musicBase ++ "LMNOPQRSTUV".toList) (by decide)⟩

/-! ## Claim C3: successful replacement-fallback accounting -/

theorem errPrefix_append_ne_nil (s : LC) : errPrefix ++ s ≠ [] := by
  intro h
  have : ([] : LC).length = (errPrefix ++ s).length := by rw [h]
  simp [errPrefix] at this

/-- C3: when the first attempt fails with an `unavailable` diagnostic,
the opt-in fallback is enabled, the run is not dry, the search returns a
distinct nonempty replacement URL, and the replacement download
succeeds, `download_track` reports success under the replacement URL with
the replacement's extracted identifier and the new path; consuming that
outcome records the replacement identifier (not the original track's) in
the index and adds no failed URL. -/
theorem fallback_replacement_success (env : DTEnv) (url : LC) (preferMusic : Bool)
    (originalTitle : Option LC) (repl rid : LC) (st : ConsSt)
    (h1 : env.first.rc ≠ 0) (h2 : env.first.err ≠ [])
    (h3 : classifyFailure (errPrefix ++ env.first.err) = .unavailable)
    (h4 : searchForReplacement originalTitle url preferMusic env.searchResults
      env.probeDuration = some repl)
    (h5 : repl ≠ []) (h6 : repl ≠ url)
    (h7 : env.second.rc = 0) (h8 : env.second.out ≠ [])
    (h9 : getVideoId repl = some rid) :
    downloadTrack env url preferMusic false true originalTitle =
      ⟨true, repl, some rid, some env.second.out, none⟩ ∧
    consumeStep st (downloadTrack env url preferMusic false true originalTitle) =
      ⟨dictSet st.m rid env.second.out, st.files ++ [env.second.out], st.failed⟩ := by
  have hb1 : (env.first.rc != 0) = true := by simp [bne_iff_ne, h1]
  have hb2 : (!env.first.err.isEmpty) = true := by simp [h2]
  have hnotreg : classifyFailure (errPrefix ++ env.first.err) ≠ FailCategory.region_blocked := by
    rw [h3]; intro hcon; cases hcon
  have hrc0 : (env.first.rc == 0) = false := by simp [h1]
  have hrp : regionPhase env =
      (env.first.rc, none, some (errPrefix ++ env.first.err)) := by
    unfold regionPhase
    simp only [hb1, hb2, hrc0, Bool.true_and, Bool.and_true, Bool.and_false,
      Bool.false_eq_true, if_false, if_true, Option.getD_some, hnotreg]
    simp
  have hout : downloadTrack env url preferMusic false true originalTitle =
      ⟨true, repl, some rid, some env.second.out, none⟩ := by
    unfold downloadTrack
    rw [hrp]
    have htr : truthyO (some (errPrefix ++ env.first.err)) = true := by
      simp [errPrefix_append_ne_nil env.first.err]
    have hcls : (decide (classifyFailure ((some (errPrefix ++ env.first.err)).getD []) =
        FailCategory.unavailable)) = true := by
      simp only [Option.getD_some]
      simp [h3]
    simp only [Bool.not_false, Bool.true_and, hb1, htr, hcls, Bool.and_true, Bool.and_self,
      if_true]
    rw [h4]
    have hrne : (!repl.isEmpty) = true := by simp [h5]
    have hrnu : (repl == url) = false := by simp [h6]
    have h2rc : (env.second.rc == 0) = true := by simp [h7]
    have h2out : (!env.second.out.isEmpty) = true := by simp [h8]
    simp only [hrne, hrnu, Bool.not_false, Bool.and_self, if_true, h2rc, h2out, h9]
  refine ⟨hout, ?_⟩
  rw [hout]
  unfold consumeStep
  have hcond : (true && truthyO (some rid) && (some env.second.out).isSome) = true := by
    simp [getVideoId_ne_nil repl rid h9]
  rw [if_pos hcond]
  rfl

def c3Url : LC := "https://www.youtube.com/watch?v=abcdefghijk".toList

def c3Env : DTEnv where
  first := ⟨1, [], "ERROR: Video unavailable".toList⟩
  geo := fun _ => ⟨1, [], []⟩
  probeDuration := none
  searchResults := [⟨"LMNOPQRSTUV".toList, "song".toList, some 100, [⟨some "opus".toList⟩]⟩]
  second := ⟨0, "/library/pl/song [LMNOPQRSTUV].m4a".toList, []⟩

/-- Witness for C3: a concrete unavailable track whose replacement search
finds a distinct candidate and whose replacement download succeeds. -/
theorem fallback_replacement_success_witness :
    classifyFailure (errPrefix ++ c3Env.first.err) = .unavailable ∧
    searchForReplacement (some "song".toList) c3Url false c3Env.searchResults
      c3Env.probeDuration = some (wwwBase ++ "LMNOPQRSTUV".toList) ∧
    downloadTrack c3Env c3Url false false true (some "song".toList) =
      ⟨true, wwwBase ++ "LMNOPQRSTUV".toList, some "LMNOPQRSTUV".toList,
        some c3Env.second.out, none⟩ ∧
    consumeStep ⟨[], [], []⟩ (downloadTrack c3Env c3Url false false true (some "song".toList)) =
      ⟨dictSet [] "LMNOPQRSTUV".toList c3Env.second.out, [] ++ [c3Env.second.out], []⟩ :=
  ⟨by decide, by decide,
    (fallback_replacement_success c3Env c3Url false (some "song".toList)
      (wwwBase ++ "LMNOPQRSTUV".toList) "LMNOPQRSTUV".toList ⟨[], [], []⟩
      (by decide) (by decide) (by decide) (by decide) (by decide) (by decide)
      (by decide) (by decide) (by decide)).1,
    (fallback_replacement_success c3Env c3Url false (some "song".toList)
      (wwwBase ++ "LMNOPQRSTUV".toList) "LMNOPQRSTUV".toList ⟨[], [], []⟩
      (by decide) (by decide) (by decide) (by decide) (by decide) (by decide)
      (by decide) (by decide) (by decide)).2⟩

/-! ## Claim C2: process exit status -/

theorem runPlaylistsFrom_totFail (dl : LC → Outcome) :
    ∀ (pls : List (Option (List Track))) (st : RunSt),
      (runPlaylistsFrom dl st pls).totFail + st.allFailed.length =
        st.totFail + (runPlaylistsFrom dl st pls).allFailed.length
  | [], st => by simp [runPlaylistsFrom]
  | pl :: pls, st => by
    have h := runPlaylistsFrom_totFail dl pls (runStep dl st pl)
    have hts : (runStep dl st pl).allFailed.length =
        st.allFailed.length + (processPlaylist dl st.m pl).failed.length := by
      simp [runStep]
    have htf : (runStep dl st pl).totFail =
        st.totFail + (processPlaylist dl st.m pl).failed.length := by
      simp [runStep]
    simp only [runPlaylistsFrom]
    omega

/-- Total failures equal the length of the flat failed-URL list. -/
theorem runPlaylists_totFail_eq (dl : LC → Outcome) (m : VidMap)
    (pls : List (Option (List Track))) :
    (runPlaylists dl m pls).totFail = (runPlaylists dl m pls).allFailed.length := by
  have h := runPlaylistsFrom_totFail dl pls ⟨m, 0, 0, 0, [], []⟩
  simpa [runPlaylists] using h

/-- C2 (amended): exit status is 2 when the input root does not exist;
when at least one playlist file is found, the status is 0 exactly when
zero track failures occurred and 1 exactly when at least one did; but
when no playlist files are found, the status is 0 exactly when the
pre-scan found existing tracks, and 1 otherwise, regardless of (the zero)
track failures. -/
theorem exit_status_spec (rootExists : Bool) (libFiles : List (LC × LC))
    (pls : List (Option (List Track))) (dl : LC → Outcome) :
    (rootExists = false → mainExit rootExists libFiles pls dl = 2) ∧
    (rootExists = true → pls ≠ [] →
      (mainExit rootExists libFiles pls dl = 0 ↔
        (runPlaylists dl (findExistingDownloads libFiles) pls).totFail = 0) ∧
      (mainExit rootExists libFiles pls dl = 1 ↔
        0 < (runPlaylists dl (findExistingDownloads libFiles) pls).totFail)) ∧
    (rootExists = true → pls = [] →
      mainExit rootExists libFiles pls dl =
        if findExistingDownloads libFiles ≠ [] then 0 else 1) := by
  refine ⟨?_, ?_, ?_⟩
  · intro h; subst h; rfl
  · intro h hne
    subst h
    have hpe : pls.isEmpty = false := by simp [hne]
    have htot := runPlaylists_totFail_eq dl (findExistingDownloads libFiles) pls
    unfold mainExit
    simp only [Bool.not_true, Bool.false_eq_true, if_false, hpe]
    cases haf : (runPlaylists dl (findExistingDownloads libFiles) pls).allFailed with
    | nil =>
      rw [haf] at htot
      simp [htot]
    | cons a l =>
      rw [haf] at htot
      simp only [htot, List.length_cons]
      constructor
      · constructor <;> intro hh <;> simp_all
      · constructor <;> intro hh <;> simp_all
  · intro h hpe
    subst h; subst hpe
    unfold mainExit
    by_cases hm : findExistingDownloads libFiles = []
    · simp [hm]
    · simp [hm]

def c2Dl : LC → Outcome := fun u => ⟨false, u, none, none, some "boom".toList⟩

/-- C2 counterexample: the input root exists, no playlist files are
found, the library scan finds nothing; the run has zero track failures
yet exits with status 1, refuting "exit status is 0 if zero track
failures occurred". -/
theorem exit_status_cex :
    mainExit true [] [] c2Dl = 1 ∧
      (runPlaylists c2Dl (findExistingDownloads []) []).totFail = 0 := by
  constructor <;> rfl

def c2Track : Track := ⟨some "song".toList, none, some "abcdefghijk".toList⟩

def c2Pls : List (Option (List Track)) := [some [c2Track]]

/-- Witness for C2: the three clauses at concrete runs — a missing root,
a one-track playlist whose download fails, and a playlist-free run. -/
theorem exit_status_spec_witness :
    mainExit false [] [] c2Dl = 2 ∧
      (mainExit true [] c2Pls c2Dl = 1 ↔
        0 < (runPlaylists c2Dl (findExistingDownloads []) c2Pls).totFail) ∧
      mainExit true [] [] c2Dl = if findExistingDownloads [] ≠ [] then 0 else 1 :=
  ⟨(exit_status_spec false [] [] c2Dl).1 rfl,
    ((exit_status_spec true [] c2Pls c2Dl).2.1 rfl (List.cons_ne_nil _ _)).2,
    (exit_status_spec true [] [] c2Dl).2.2 rfl rfl⟩

/-! ## Claim C1: Executor invocation count across playlists -/

/-- The identifiers of the resolvable tracks of one playlist, in order. -/
def resolvedVids (tracks : List Track) : List LC :=
  tracks.filterMap (fun t => (resolveTrack t).map Prod.snd)

/-- `N`: the number of resolvable track occurrences across the run. -/
def runN (pls : List (List Track)) : Nat :=
  (pls.map (fun p => (resolvedVids p).length)).sum

def runKAux (seen : List LC) : List (List Track) → Nat
  | [] => 0
  | p :: ps => (resolvedVids p).countP (fun v => decide (v ∈ seen)) +
      runKAux (seen ++ resolvedVids p) ps

/-- `K`: the number of occurrences whose identifier already occurred in
an earlier playlist of the run. -/
def runK (pls : List (List Track)) : Nat := runKAux [] pls

/-- A track that resolves, with a URL whose extracted identifier is the
resolved identifier. -/
def ResolvesConsistently (t : Track) : Prop :=
  ∃ u v, resolveTrack t = some (u, v) ∧ getVideoId u = some v

theorem buildPhase_urls (m : VidMap) :
    ∀ tracks : List Track, (∀ t ∈ tracks, ResolvesConsistently t) →
      (buildPhase m tracks).urls.filterMap getVideoId =
        (resolvedVids tracks).filter (fun v => !(alLookup m v).isSome) ∧
      (buildPhase m tracks).urls.length =
        ((resolvedVids tracks).filter (fun v => !(alLookup m v).isSome)).length ∧
      (∀ u ∈ (buildPhase m tracks).urls, ∃ v, getVideoId u = some v)
  | [], _ => by simp [buildPhase, resolvedVids]
  | t :: ts, h => by
    obtain ⟨u, v, hres, hgvi⟩ := h t (List.mem_cons_self t ts)
    obtain ⟨ih1, ih2, ih3⟩ := buildPhase_urls m ts (fun t' ht' => h t' (List.mem_cons_of_mem t ht'))
    have hrv : resolvedVids (t :: ts) = v :: resolvedVids ts := by
      simp [resolvedVids, hres]
    by_cases hl : (alLookup m v).isSome
    · have hb : buildPhase m (t :: ts) =
          { buildPhase m ts with
            skipped := (buildPhase m ts).skipped + 1
            files := match alLookup m v with
              | some p => p :: (buildPhase m ts).files
              | none => (buildPhase m ts).files } := by
        simp only [buildPhase, hres, hl, if_true]
      rw [hb, hrv]
      have hfv : (fun w => !(alLookup m w).isSome) v = false := by simp [hl]
      refine ⟨?_, ?_, ih3⟩
      · rw [List.filter_cons_of_neg (by simp [hl])]
        exact ih1
      · rw [List.filter_cons_of_neg (by simp [hl])]
        exact ih2
    · have hb : buildPhase m (t :: ts) =
          { buildPhase m ts with
            urls := u :: (buildPhase m ts).urls
            titleMap := match t.title with
              | some ttl => if !u.isEmpty && !ttl.isEmpty
                  then (u, ttl) :: (buildPhase m ts).titleMap
                  else (buildPhase m ts).titleMap
              | none => (buildPhase m ts).titleMap } := by
        simp only [buildPhase, hres, hl, Bool.false_eq_true, if_false]
      rw [hb, hrv]
      refine ⟨?_, ?_, ?_⟩
      · rw [List.filter_cons_of_pos (by simp [hl])]
        simp only [List.filterMap_cons, hgvi]
        rw [ih1]
      · rw [List.filter_cons_of_pos (by simp [hl])]
        simp only [List.length_cons, ih2]
      · intro u' hu'
        rcases List.mem_cons.1 hu' with hh | hh
        · exact ⟨v, hh ▸ hgvi⟩
        · exact ih3 u' hh

/-- A download oracle in which every invocation succeeds, reporting the
submitted URL's own identifier and some path. -/
def AlwaysSucceeds (dl : LC → Outcome) : Prop :=
  ∀ u : LC, (dl u).ok = true ∧ (dl u).vid = getVideoId u ∧ ∃ fp, (dl u).path = some fp

theorem consumePhase_success (dl : LC → Outcome) (hdl : AlwaysSucceeds dl) :
    ∀ (urls : List LC), (∀ u ∈ urls, ∃ v, getVideoId u = some v) →
      ∀ st : ConsSt,
        (consumePhase dl st urls).failed = st.failed ∧
        (∀ w, (alLookup (consumePhase dl st urls).m w).isSome ↔
          ((alLookup st.m w).isSome ∨ w ∈ urls.filterMap getVideoId))
  | [], _, st => by simp [consumePhase]
  | u :: us, h, st => by
    obtain ⟨v, hv⟩ := h u (List.mem_cons_self u us)
    obtain ⟨hok, hvid, fp, hfp⟩ := hdl u
    have hvne : v.isEmpty = false := List.isEmpty_eq_false.2 (getVideoId_ne_nil u v hv)
    have hcond : ((dl u).ok && truthyO (dl u).vid && (dl u).path.isSome) = true := by
      rw [hok, hvid, hv, hfp]
      simp [hvne]
    have hstep : consumeStep st (dl u) =
        { st with m := dictSet st.m v fp, files := st.files ++ [fp] } := by
      unfold consumeStep
      rw [if_pos hcond, hvid, hv, hfp]
      rfl
    have ih := consumePhase_success dl hdl us
      (fun u' hu' => h u' (List.mem_cons_of_mem u hu'))
      { st with m := dictSet st.m v fp, files := st.files ++ [fp] }
    refine ⟨?_, ?_⟩
    · show (consumePhase dl (consumeStep st (dl u)) us).failed = st.failed
      rw [hstep]
      exact ih.1
    · intro w
      show (alLookup (consumePhase dl (consumeStep st (dl u)) us).m w).isSome ↔ _
      rw [hstep]
      rw [ih.2 w]
      have hds : (alLookup (dictSet st.m v fp) w).isSome ↔
          (v = w ∨ (alLookup st.m w).isSome) := by
        rw [alLookup_dictSet]
        by_cases hvw : v = w <;> simp [hvw]
      rw [hds]
      simp only [List.filterMap_cons, hv, List.mem_cons]
      constructor
      · rintro ((hh | hh) | hh)
        · exact Or.inr (Or.inl hh.symm)
        · exact Or.inl hh
        · exact Or.inr (Or.inr hh)
      · rintro (hh | (hh | hh))
        · exact Or.inl (Or.inr hh)
        · exact Or.inl (Or.inl hh.symm)
        · exact Or.inr hh

theorem length_countP_split (p : LC → Bool) :
    ∀ l : List LC, l.length = l.countP p + (l.filter (fun a => !p a)).length
  | [] => rfl
  | a :: l => by
    have ih := length_countP_split p l
    cases hp : p a with
    | true =>
      simp only [List.length_cons, List.countP_cons, hp, if_true, List.filter_cons, Bool.not_true,
        Bool.false_eq_true]
      simp only [Bool.false_eq_true, if_false]
      omega
    | false =>
      simp only [List.length_cons, List.countP_cons, hp, List.filter_cons, Bool.not_false,
        if_true, List.length_cons]
      simp only [Bool.false_eq_true, if_false]
      omega

theorem processPlaylist_success (dl : LC → Outcome) (hdl : AlwaysSucceeds dl)
    (m : VidMap) (seen : List LC) (tracks : List Track)
    (hres : ∀ t ∈ tracks, ResolvesConsistently t)
    (hseen : ∀ w, (alLookup m w).isSome ↔ w ∈ seen) :
    (processPlaylist dl m (some tracks)).invoked.length =
      (resolvedVids tracks).length -
        (resolvedVids tracks).countP (fun v => decide (v ∈ seen)) ∧
    (processPlaylist dl m (some tracks)).invoked.filterMap getVideoId =
      (resolvedVids tracks).filter (fun v => !decide (v ∈ seen)) ∧
    (∀ w, (alLookup ((processPlaylist dl m (some tracks)).m) w).isSome ↔
      w ∈ seen ++ resolvedVids tracks) := by
  obtain ⟨hb1, hb2, hb3⟩ := buildPhase_urls m tracks hres
  have hfcongr : (resolvedVids tracks).filter (fun v => !(alLookup m v).isSome) =
      (resolvedVids tracks).filter (fun v => !decide (v ∈ seen)) := by
    apply List.filter_congr
    intro v _
    by_cases hvs : v ∈ seen
    · simp [hvs, (hseen v).2 hvs]
    · have : ¬(alLookup m v).isSome = true := fun hh => hvs ((hseen v).1 hh)
      simp only [Bool.not_eq_true] at this
      simp [hvs, this]
  have hcount : (resolvedVids tracks).length =
      (resolvedVids tracks).countP (fun v => decide (v ∈ seen)) +
        ((resolvedVids tracks).filter (fun v => !decide (v ∈ seen))).length :=
    length_countP_split _ _
  cases he : (buildPhase m tracks).urls.isEmpty with
  | true =>
    have hurls : (buildPhase m tracks).urls = [] := List.isEmpty_iff.1 he
    have hpp : processPlaylist dl m (some tracks) =
        ⟨0, [], (buildPhase m tracks).skipped, m, []⟩ := by
      simp only [processPlaylist, he, if_true]
    have hfe : (resolvedVids tracks).filter (fun v => !decide (v ∈ seen)) = [] := by
      rw [← hfcongr, ← hb1, hurls]
      rfl
    rw [hpp]
    refine ⟨?_, ?_, ?_⟩
    · simp only [List.length_nil]
      rw [hfe] at hcount
      simp at hcount
      omega
    · simp [hfe]
    · intro w
      simp only
      rw [hseen w, List.mem_append]
      constructor
      · exact Or.inl
      · rintro (hh | hh)
        · exact hh
        · have := List.filter_eq_nil_iff.1 hfe w hh
          simp only [Bool.not_eq_true', decide_eq_false_iff_not, Decidable.not_not] at this
          exact this
  | false =>
    have hpp : processPlaylist dl m (some tracks) =
        ⟨(buildPhase m tracks).urls.length -
            (consumePhase dl ⟨m, (buildPhase m tracks).files, []⟩
              (buildPhase m tracks).urls).failed.length,
          (consumePhase dl ⟨m, (buildPhase m tracks).files, []⟩
            (buildPhase m tracks).urls).failed,
          (buildPhase m tracks).skipped,
          (consumePhase dl ⟨m, (buildPhase m tracks).files, []⟩
            (buildPhase m tracks).urls).m,
          (buildPhase m tracks).urls⟩ := by
      simp only [processPlaylist, he, Bool.false_eq_true, if_false]
    obtain ⟨hcf, hcm⟩ := consumePhase_success dl hdl (buildPhase m tracks).urls hb3
      ⟨m, (buildPhase m tracks).files, []⟩
    rw [hpp]
    refine ⟨?_, ?_, ?_⟩
    · simp only
      rw [hb2, hfcongr]
      omega
    · simp only
      rw [hb1, hfcongr]
    · intro w
      simp only
      rw [hcm w]
      simp only [alLookup]
      rw [hseen w, hb1, hfcongr, List.mem_append, List.mem_filter]
      constructor
      · rintro (hh | hh)
        · exact Or.inl hh
        · exact Or.inr hh.1
      · rintro (hh | hh)
        · exact Or.inl hh
        · by_cases hws : w ∈ seen
          · exact Or.inl hws
          · exact Or.inr ⟨hh, by simp [hws]⟩

theorem resolvesConsistently_bare (v : LC) (h : wf11 v) :
    ResolvesConsistently ⟨none, none, some v⟩ := by
  have hvne : v.isEmpty = false := by
    rw [List.isEmpty_eq_false]
    intro h0
    rw [h0] at h
    simp [wf11] at h
  have hv : truthyO (some v) = true := by simp [hvne]
  have hstep : resolveStep ((Track.mk none none (some v)).url,
      (Track.mk none none (some v)).videoId) = (some (wwwBase ++ v), some v) := by
    unfold resolveStep
    simp only [hv, truthyO_none, Bool.not_false, Bool.and_self, if_true, Option.getD_some,
      truthyO_wwwBase_append, Bool.not_true, Bool.and_false, Bool.false_eq_true, if_false]
  refine ⟨wwwBase ++ v, v, ?_, getVideoId_wwwBase v h⟩
  unfold resolveTrack
  simp only [hstep, truthyO_wwwBase_append, hv, Bool.and_self, if_true, Option.getD_some]

theorem runFrom_success (dl : LC → Outcome) (hdl : AlwaysSucceeds dl) :
    ∀ (pls : List (List Track)),
      (∀ p ∈ pls, ∀ t ∈ p, ResolvesConsistently t) →
      (∀ p ∈ pls, (resolvedVids p).Nodup) →
      ∀ (st : RunSt) (seen : List LC),
        (∀ w, (alLookup st.m w).isSome ↔ w ∈ seen) →
        (st.invoked.filterMap getVideoId).Nodup →
        (∀ w ∈ st.invoked.filterMap getVideoId, w ∈ seen) →
        (runPlaylistsFrom dl st (pls.map some)).invoked.length + runKAux seen pls =
          st.invoked.length + runN pls ∧
        ((runPlaylistsFrom dl st (pls.map some)).invoked.filterMap getVideoId).Nodup
  | [], _, _, st, seen, _, hnodup, _ => by
    refine ⟨?_, ?_⟩
    · simp [runPlaylistsFrom, runKAux, runN]
    · simpa [runPlaylistsFrom] using hnodup
  | p :: ps, hres, hnd, st, seen, hseen, hnodup, hsub => by
    obtain ⟨hp1, hp2, hp3⟩ := processPlaylist_success dl hdl st.m seen p
      (hres p (List.mem_cons_self p ps)) hseen
    have hndp : (resolvedVids p).Nodup := hnd p (List.mem_cons_self p ps)
    have hst1inv : (runStep dl st (some p)).invoked =
        st.invoked ++ (processPlaylist dl st.m (some p)).invoked := rfl
    have hst1m : (runStep dl st (some p)).m = (processPlaylist dl st.m (some p)).m := rfl
    have hvids1 : (runStep dl st (some p)).invoked.filterMap getVideoId =
        st.invoked.filterMap getVideoId ++
          (resolvedVids p).filter (fun v => !decide (v ∈ seen)) := by
      rw [hst1inv, List.filterMap_append, hp2]
    have hseen1 : ∀ w, (alLookup (runStep dl st (some p)).m w).isSome ↔
        w ∈ seen ++ resolvedVids p := by
      intro w
      rw [hst1m]
      exact hp3 w
    have hnodup1 : ((runStep dl st (some p)).invoked.filterMap getVideoId).Nodup := by
      rw [hvids1, List.nodup_append]
      refine ⟨hnodup, hndp.filter _, ?_⟩
      intro a ha hb
      have has : a ∈ seen := hsub a ha
      have := (List.mem_filter.1 hb).2
      simp only [Bool.not_eq_true', decide_eq_false_iff_not] at this
      exact this has
    have hsub1 : ∀ w ∈ (runStep dl st (some p)).invoked.filterMap getVideoId,
        w ∈ seen ++ resolvedVids p := by
      intro w hw
      rw [hvids1] at hw
      rcases List.mem_append.1 hw with hh | hh
      · exact List.mem_append.2 (Or.inl (hsub w hh))
      · exact List.mem_append.2 (Or.inr (List.mem_filter.1 hh).1)
    obtain ⟨ih1, ih2⟩ := runFrom_success dl hdl ps
      (fun q hq => hres q (List.mem_cons_of_mem p hq))
      (fun q hq => hnd q (List.mem_cons_of_mem p hq))
      (runStep dl st (some p)) (seen ++ resolvedVids p) hseen1 hnodup1 hsub1
    have hrun : runPlaylistsFrom dl st ((p :: ps).map some) =
        runPlaylistsFrom dl (runStep dl st (some p)) (ps.map some) := rfl
    have hlen1 : (runStep dl st (some p)).invoked.length =
        st.invoked.length + (processPlaylist dl st.m (some p)).invoked.length := by
      rw [hst1inv, List.length_append]
    have hcle : (resolvedVids p).countP (fun v => decide (v ∈ seen)) ≤
        (resolvedVids p).length := List.countP_le_length _
    have hK : runKAux seen (p :: ps) =
        (resolvedVids p).countP (fun v => decide (v ∈ seen)) +
          runKAux (seen ++ resolvedVids p) ps := rfl
    have hN : runN (p :: ps) = (resolvedVids p).length + runN ps := by
      simp [runN]
    rw [hrun]
    exact ⟨by omega, ih2⟩

/-- C1 (amended): starting from an empty dedup index, when identifiers
are pairwise distinct within each playlist and every submitted download
succeeds, reporting the submitted URL's own identifier and a final path,
the scheduler performs exactly `N - K` Executor invocations (`N` the
resolvable track occurrences, `K` the occurrences repeating an identifier
from an earlier playlist), and no identifier is submitted to more than
one download task in the run. -/
theorem scheduler_invocation_count (dl : LC → Outcome) (pls : List (List Track))
    (hdl : AlwaysSucceeds dl)
    (hres : ∀ p ∈ pls, ∀ t ∈ p, ResolvesConsistently t)
    (hnd : ∀ p ∈ pls, (resolvedVids p).Nodup) :
    (runPlaylists dl [] (pls.map some)).invoked.length = runN pls - runK pls ∧
    ((runPlaylists dl [] (pls.map some)).invoked.filterMap getVideoId).Nodup := by
  obtain ⟨h1, h2⟩ := runFrom_success dl hdl pls hres hnd ⟨[], 0, 0, 0, [], []⟩ []
    (by intro w; simp [alLookup]) (by simp) (by simp)
  refine ⟨?_, h2⟩
  have hK : runKAux [] pls = runK pls := rfl
  simp only [List.length_nil] at h1
  unfold runPlaylists
  omega

def c1Track : Track := ⟨some "song".toList, none, some "abcdefghijk".toList⟩

def c1Fail : LC → Outcome := fun u => ⟨false, u, none, none, some "err".toList⟩

def c1Pls : List (List Track) := [[c1Track, c1Track], [c1Track]]

/-- C1 counterexample: a run of N = 3 resolvable occurrences of one
identifier across two playlists, K = 1 cross-playlist repeat, whose
downloads all fail: the identifier stays out of the dedup index, the
Executor is invoked 3 times (not N - K = 2), and the same identifier is
submitted to three download tasks in one run. -/
theorem scheduler_invocation_count_cex :
    (runPlaylists c1Fail [] (c1Pls.map some)).invoked.length = 3 ∧
      runN c1Pls = 3 ∧ runK c1Pls = 1 ∧
      (runPlaylists c1Fail [] (c1Pls.map some)).invoked.length ≠ runN c1Pls - runK c1Pls ∧
      ¬((runPlaylists c1Fail [] (c1Pls.map some)).invoked.filterMap getVideoId).Nodup := by
  refine ⟨by decide, by decide, by decide, by decide, by decide⟩

def c1wPls : List (List Track) :=
  [[⟨none, none, some "abcdefghijk".toList⟩, ⟨none, none, some "LMNOPQRSTUV".toList⟩],
   [⟨none, none, some "abcdefghijk".toList⟩]]

def c1Succ : LC → Outcome :=
  fun u => ⟨true, u, getVideoId u, some "/library/x.m4a".toList, none⟩

/-- Witness for C1: a concrete all-success run with one cross-playlist
repeat performs `N - K = 3 - 1 = 2` invocations with distinct submitted
identifiers. -/
theorem scheduler_invocation_count_witness :
    runN c1wPls = 3 ∧ runK c1wPls = 1 ∧
      (runPlaylists c1Succ [] (c1wPls.map some)).invoked.length = runN c1wPls - runK c1wPls ∧
      ((runPlaylists c1Succ [] (c1wPls.map some)).invoked.filterMap getVideoId).Nodup :=
  ⟨by decide, by decide,
    (scheduler_invocation_count c1Succ c1wPls (fun u => ⟨rfl, rfl, ⟨_, rfl⟩⟩)
      (by
        intro p hp t ht
        fin_cases hp <;> fin_cases ht <;> exact resolvesConsistently_bare _ (by decide))
      (by intro p hp; fin_cases hp <;> decide)).1,
    (scheduler_invocation_count c1Succ c1wPls (fun u => ⟨rfl, rfl, ⟨_, rfl⟩⟩)
      (by
        intro p hp t ht
        fin_cases hp <;> fin_cases ht <;> exact resolvesConsistently_bare _ (by decide))
      (by intro p hp; fin_cases hp <;> decide)).2⟩
